import Mathlib

/-!
Verification development for a delivery-management system.

The development shallowly embeds the two route-planning implementations of
the repository:

* namespace `DMS` models `DMS_layered.py` (structured addresses, Manhattan
  distance, greedy truck assignment followed by a nearest-neighbor tour with
  a closing leg back to the depot);
* namespace `Sys` models `src/system.py` together with `src/models.py`
  (string addresses parsed into 2-D points, Euclidean distance, a
  weight-constrained k-means-like partitioner, and a nearest-neighbor
  sequencer that accumulates onto the stored total and has no closing leg).

Floats of the Python source are modelled as rationals; the square root of
the Euclidean metric is modelled with `Real.sqrt`.  Mutation of the Python
objects is modelled by explicit state passing: dictionaries become
insertion-ordered association lists, and in-place updates become functional
updates of those lists.
-/

set_option maxHeartbeats 1000000

namespace DMS

/-- Model of `Address` from `DMS_layered.py`: a labelled point on a 2-D
integer grid.  Python dataclass equality compares all three fields. -/
structure Address where
  label : String
  x : ℤ
  y : ℤ
deriving DecidableEq

/-- Model of `Package` from `DMS_layered.py`.  `weight` (a Python float) is
modelled as a rational. -/
structure Package where
  package_id : String
  label_address : Address
  status : String
  weight : ℚ
  assigned_route_id : Option String := none
  proof_of_delivery : Option String := none
deriving DecidableEq

/-- Model of `Truck` from `DMS_layered.py`. -/
structure Truck where
  truck_id : String
  capacity : ℚ
  current_load : ℚ := 0
  status : String := "Available"
  current_route_id : Option String := none
deriving DecidableEq

/-- `Truck.check_capacity`: `current_load + additional_weight <= capacity`. -/
def Truck.check_capacity (t : Truck) (additional_weight : ℚ) : Bool :=
  t.current_load + additional_weight ≤ t.capacity

/-- `Truck.assign_route`: binds the route, overwrites `current_load` with
`load`, and marks the truck in use. -/
def Truck.assign_route (t : Truck) (route_id : String) (load : ℚ) : Truck :=
  { t with current_route_id := some route_id, current_load := load, status := "InUse" }

/-- Model of `Driver` from `DMS_layered.py` (the fields the planner touches). -/
structure Driver where
  driver_id : String
  name : String
  license_number : String
  current_route_id : Option String := none
deriving DecidableEq

/-- Model of `Route` from `DMS_layered.py`. `total_distance` only ever holds
the integer Manhattan totals computed by the strategy (initially `0.0`). -/
structure Route where
  route_id : String
  truck_id : String
  driver_id : String
  stops : List Address := []
  package_ids : List String := []
  total_distance : ℤ := 0
  optimized : Bool := false
  status : String := "Planned"
deriving DecidableEq

/-- `Route.add_package`: append the package id, record its stop when it is
not already present, and point the package at this route.  The mutated
route and package are returned. -/
def Route.add_package (r : Route) (pkg : Package) : Route × Package :=
  ({ r with
      package_ids := r.package_ids ++ [pkg.package_id],
      stops := if pkg.label_address ∈ r.stops then r.stops
               else r.stops ++ [pkg.label_address] },
   { pkg with assigned_route_id := some r.route_id })

namespace GPSSystem

/-- `GPSSystem.distance`: Manhattan distance between two grid points. -/
def distance (x1 y1 x2 y2 : ℤ) : ℤ := |x1 - x2| + |y1 - y2|

end GPSSystem

/-- Call-local state of the assignment loop of
`NearestNeighborStrategy.compute_routes`: the routes dictionary (an
insertion-ordered association list), the truck and driver pools (the
`list(...)` snapshots, functionally updated in place), the two round-robin
cursors, and the fresh-route counter. -/
structure AssignState where
  routes : List (String × Route)
  trucks : List Truck
  drivers : List Driver
  truck_index : ℕ
  driver_index : ℕ
  route_counter : ℕ
deriving DecidableEq

/-- Dictionary read `routes[route_id]`: first value stored under the key. -/
def lookupRoute : List (String × Route) → String → Option Route
  | [], _ => none
  | (k, r) :: rest, rid => if k = rid then some r else lookupRoute rest rid

/-- Dictionary write `routes[route_id] = r`: replace the first entry holding
the key, appending when the key is absent. -/
def updateRoute : List (String × Route) → String → Route → List (String × Route)
  | [], rid, r => [(rid, r)]
  | (k, r0) :: rest, rid, r =>
      if k = rid then (k, r) :: rest else (k, r0) :: updateRoute rest rid r

/-- The inner `while True` scan of `compute_routes`: starting from the truck
cursor, test each truck with `check_capacity`, advancing the cursor modulo
the pool size; after a full wrap (`fuel` starts at the pool size) the scan
gives up.  Returns the index of the chosen truck.  The out-of-range read is
unreachable from `compute_routes` (the cursor is kept below the pool size);
it is mapped to the giving-up outcome. -/
def scanTrucks (trucks : List Truck) (w : ℚ) : ℕ → ℕ → Option ℕ
  | 0, _ => none
  | fuel + 1, cur =>
      match trucks.get? cur with
      | none => none
      | some t =>
          if t.check_capacity w then some cur
          else scanTrucks trucks w fuel ((cur + 1) % trucks.length)

/-- One iteration of the first (greedy assignment) loop of
`NearestNeighborStrategy.compute_routes` on one unassigned package.

Outcomes: `some (s, pkg)` is normal progress (including the
capacity-exceeded path, which marks the package `Exception` and leaves the
state untouched); `none` models a Python exception: the `KeyError` raised
by `routes[route_id]` when the chosen truck entered the run already bound
to a route id absent from the fresh routes dictionary (and the unreachable
IndexError reads of the pools). -/
def processPackage (s : AssignState) (pkg : Package) : Option (AssignState × Package) :=
  match scanTrucks s.trucks pkg.weight s.trucks.length s.truck_index with
  | none => some (s, { pkg with status := "Exception" })
  | some ti =>
      match s.trucks.get? ti, s.drivers.get? s.driver_index with
      | some truck, some driver =>
          let fresh := "R" ++ Nat.repr s.route_counter
          -- Python: route_id = assigned_truck.current_route_id or fresh
          let route_id :=
            match truck.current_route_id with
            | none => fresh
            | some rid => if rid = "" then fresh else rid
          -- the route-creation branch runs exactly when current_route_id is None
          let creating := truck.current_route_id.isNone
          let truck1 := if creating then truck.assign_route route_id 0 else truck
          let s1 : AssignState :=
            if creating then
              { s with
                  route_counter := s.route_counter + 1,
                  trucks := s.trucks.set ti truck1,
                  drivers := s.drivers.set s.driver_index
                    { driver with current_route_id := some route_id },
                  routes := updateRoute s.routes route_id
                    { route_id := route_id, truck_id := truck.truck_id,
                      driver_id := driver.driver_id } }
            else s
          match lookupRoute s1.routes route_id with
          | none => none
          | some route =>
              let rp := route.add_package pkg
              some
                ({ s1 with
                    routes := updateRoute s1.routes route_id rp.1,
                    trucks := s1.trucks.set ti
                      { truck1 with current_load := truck1.current_load + pkg.weight },
                    driver_index := (s.driver_index + 1) % s.drivers.length,
                    truck_index := (ti + 1) % s.trucks.length },
                 rp.2)
      | _, _ => none

/-- The first loop of `compute_routes` over the unassigned pool, in order.
Returns the final state together with the processed (mutated) packages in
their original order; `none` propagates a Python exception. -/
def assignLoop (s : AssignState) : List Package → Option (AssignState × List Package)
  | [] => some (s, [])
  | pkg :: rest =>
      match processPackage s pkg with
      | none => none
      | some (s1, pkg1) =>
          match assignLoop s1 rest with
          | none => none
          | some (s2, rest1) => some (s2, pkg1 :: rest1)

/-- Re-assemble the caller-owned package store after the run: the filtered
unassigned packages were mutated in place, positionally; every package that
entered the run with a route id is the very same object. -/
def mergeUpdated : List Package → List Package → List Package
  | [], _ => []
  | p :: rest, upd =>
      if p.assigned_route_id.isNone then
        match upd with
        | [] => p :: rest
        | q :: uRest => q :: mergeUpdated rest uRest
      else p :: mergeUpdated rest upd

/-- The `min(unvisited, key=distance from the current position)` selection:
Python `min` keeps the first element attaining the minimum. -/
def selectNearest (cx cy : ℤ) (s0 : Address) (rest : List Address) : Address :=
  rest.foldl
    (fun best s =>
      if GPSSystem.distance cx cy s.x s.y < GPSSystem.distance cx cy best.x best.y
      then s else best)
    s0

/-- The `while unvisited` loop of the second phase of `compute_routes`:
repeatedly visit the nearest unvisited stop, accumulating Manhattan legs,
and close the tour back to the depot `(0, 0)` when no stop remains.  `fuel`
is the initial stop count; `List.erase` removes the first occurrence equal
to the chosen stop, exactly as `list.remove` does. -/
def nnLoop : ℕ → List Address → ℤ → ℤ → ℤ → List Address × ℤ
  | 0, _, cx, cy, total => ([], total + GPSSystem.distance cx cy 0 0)
  | _ + 1, [], cx, cy, total => ([], total + GPSSystem.distance cx cy 0 0)
  | fuel + 1, s :: rest, cx, cy, total =>
      let nearest := selectNearest cx cy s rest
      let d := GPSSystem.distance cx cy nearest.x nearest.y
      let next := nnLoop fuel ((s :: rest).erase nearest) nearest.x nearest.y (total + d)
      (nearest :: next.1, next.2)

/-- Per-route body of the second phase: order the stops from the depot,
store the ordered stops and the accumulated closed-tour total, and seal the
route. -/
def sequenceRoute (r : Route) : Route :=
  let res := nnLoop r.stops.length r.stops 0 0 0
  { r with stops := res.1, total_distance := res.2, optimized := true }

/-- Result of a planning run: the (mutated) package, truck and driver
stores together with the returned routes dictionary. -/
structure PlanResult where
  packages : List Package
  trucks : List Truck
  drivers : List Driver
  routes : List (String × Route)
deriving DecidableEq

namespace NearestNeighborStrategy

/-- Model of `NearestNeighborStrategy.compute_routes`: filter the unassigned
packages, greedily assign them to trucks and drivers round-robin, then
sequence every produced route by nearest neighbor.  `none` models the run
dying with a Python exception instead of returning. -/
def compute_routes (packages : List Package) (trucks : List Truck)
    (drivers : List Driver) : Option PlanResult :=
  let unassigned := packages.filter (fun p => p.assigned_route_id.isNone)
  if trucks.isEmpty || drivers.isEmpty then
    some ⟨packages, trucks, drivers, []⟩
  else
    match assignLoop ⟨[], trucks, drivers, 0, 0, 1⟩ unassigned with
    | none => none
    | some (s, upd) =>
        some ⟨mergeUpdated packages upd, s.trucks, s.drivers,
              s.routes.map (fun rr => (rr.1, sequenceRoute rr.2))⟩

end NearestNeighborStrategy

/-- Independent recomputation of a closed tour: the legs from the current
position through the listed stops in order, plus the final leg back to the
depot `(0, 0)`. -/
def pathDist (cx cy : ℤ) : List Address → ℤ
  | [] => GPSSystem.distance cx cy 0 0
  | a :: rest => GPSSystem.distance cx cy a.x a.y + pathDist a.x a.y rest

end DMS

namespace Sys

/-- A parsed 2-D position.  `src/system.py` stores addresses as strings of
the shape "x,y" and re-parses them at every use; the claims under study
concern well-formed coordinates only, so locations are modelled as the
parsed pairs of rationals (the malformed-string fallback to the origin is
outside the modelled state space). -/
abbrev Point : Type := ℚ × ℚ

/-- Model of `Package` from `src/models.py`: `label_address` is modelled by
its parsed coordinates. -/
structure SPackage where
  package_id : String
  x : ℚ
  y : ℚ
  weight : ℚ
  status : String := "Created"
  assigned_route_id : Option String := none
deriving DecidableEq

/-- Model of `Route` from `src/models.py`.  `total_distance` accumulates
Euclidean legs, hence a real. -/
structure SRoute where
  route_id : String
  truck_id : Option String := none
  driver_id : Option String := none
  stops : List Point := []
  total_distance : ℝ := 0
  optimized : Bool := false

/-- The mutable core state of `DeliverySystem` from `src/system.py`: the
package store and the route store, both insertion-ordered dictionaries.
The authentication and persistence fields of the class are CRUD glue
outside the modelled core. -/
structure DeliverySystem where
  packages : List SPackage
  routes : List (String × SRoute)

/-- Dictionary read `self.routes.get(route_id)` / `self.routes[route_id]`. -/
def lookupRoute : List (String × SRoute) → String → Option SRoute
  | [], _ => none
  | (k, r) :: rest, rid => if k = rid then some r else lookupRoute rest rid

/-- Dictionary write `self.routes[route_id] = route`. -/
def updateRoute : List (String × SRoute) → String → SRoute → List (String × SRoute)
  | [], rid, r => [(rid, r)]
  | (k, r0) :: rest, rid, r =>
      if k = rid then (k, r) :: rest else (k, r0) :: updateRoute rest rid r

/-- Dictionary read `self.packages[pid]` guarded by `pid in self.packages`:
the first stored package carrying the id. -/
def findPackage : List SPackage → String → Option SPackage
  | [], _ => none
  | p :: rest, pid => if p.package_id = pid then some p else findPackage rest pid

/-- Projection used to reason about `create_route`: the fields of a stored
package that its status updates never change. -/
def pkgKey (p : SPackage) : String × ℚ × ℚ := (p.package_id, p.x, p.y)

/-- Squared Euclidean distance between two points; `math.sqrt` of this
value is the distance the source computes. -/
def d2 (p q : Point) : ℚ := (p.1 - q.1) ^ 2 + (p.2 - q.2) ^ 2

/-- Euclidean distance `math.sqrt((x1-x2)**2 + (y1-y2)**2)`. -/
noncomputable def euclid (p q : Point) : ℝ := Real.sqrt (d2 p q)

/-- Loop body of `create_route` for one listed package id: when the store
holds the id, the package is pointed at the route and set "In Transit" and
its location is appended to the stops; unknown ids leave the state
untouched. -/
def createStep (route_id : String) (acc : List SPackage × SRoute) (pid : String) :
    List SPackage × SRoute :=
  match findPackage acc.1 pid with
  | none => acc
  | some pkg =>
      (acc.1.map (fun p =>
          if p.package_id = pid then
            { p with assigned_route_id := some route_id, status := "In Transit" }
          else p),
       { acc.2 with stops := acc.2.stops ++ [(pkg.x, pkg.y)] })

/-- Model of `DeliverySystem.create_route`: build a fresh route, and for
each listed id that the package store holds, point that package at the
route, set its status to "In Transit" and append its location as a stop.
Ids the store does not hold are skipped silently.  The route is stored and
also returned. -/
def DeliverySystem.create_route (sys : DeliverySystem) (route_id : String)
    (package_ids : List String) : DeliverySystem × SRoute :=
  let res := package_ids.foldl (createStep route_id) (sys.packages, { route_id := route_id })
  ({ packages := res.1, routes := updateRoute sys.routes route_id res.2 }, res.2)

/-- The inner scan of `optimize_route` over the pending stops: the first
stop attaining the minimal Euclidean distance from the current position is
selected (`dist < min_dist` replaces the running minimum only on a strict
decrease).  Since `Real.sqrt` is strictly monotone on the nonnegative
squared distances (`Real.sqrt_lt_sqrt_iff`), comparing squared distances
selects exactly the stop the source selects. -/
def selNearestE (cur : Point) (s0 : Point) (rest : List Point) : Point :=
  rest.foldl (fun best s => if d2 cur s < d2 cur best then s else best) s0

/-- The `while pending` loop of `optimize_route`: repeatedly move to the
nearest pending stop, adding each Euclidean leg onto the accumulated total.
No leg back to the depot is added when the stops run out.  `fuel` is the
initial stop count; `pending.pop(nearest_idx)` removes the selected
occurrence, which is the first list element equal to the selected stop. -/
noncomputable def optLoop : ℕ → List Point → Point → ℝ → List Point × ℝ
  | 0, _, _, total => ([], total)
  | _ + 1, [], _, total => ([], total)
  | fuel + 1, s :: rest, cur, total =>
      let nearest := selNearestE cur s rest
      let next := optLoop fuel ((s :: rest).erase nearest) nearest
        (total + euclid cur nearest)
      (nearest :: next.1, next.2)

/-- Model of `DeliverySystem.optimize_route`: `False` when the route id is
unknown; an empty stop list returns `True` without touching the route;
otherwise the stops are reordered nearest-neighbor from the origin, the
Euclidean legs are added onto the stored `total_distance`, and the route is
sealed. -/
noncomputable def DeliverySystem.optimize_route (sys : DeliverySystem)
    (route_id : String) : DeliverySystem × Bool :=
  match lookupRoute sys.routes route_id with
  | none => (sys, false)
  | some route =>
      if route.stops.isEmpty then (sys, true)
      else
        let res := optLoop route.stops.length route.stops (0, 0) route.total_distance
        let route1 := { route with stops := res.1, total_distance := res.2, optimized := true }
        ({ sys with routes := updateRoute sys.routes route_id route1 }, true)

/-- Stable insertion of a package into a weight-descending list: the
package goes before the first entry of smaller-or-equal weight coming
after all earlier heavier-or-equal entries. -/
def insertByWeight (p : SPackage) : List SPackage → List SPackage
  | [] => [p]
  | q :: rest => if p.weight < q.weight then q :: insertByWeight p rest else p :: q :: rest

/-- Model of `unassigned.sort(key=lambda p: p.weight, reverse=True)`:
a stable descending sort by weight (Python's sort is stable). -/
def sortByWeightDesc : List SPackage → List SPackage
  | [] => []
  | p :: rest => insertByWeight p (sortByWeightDesc rest)

/-- Selection of the target cluster for one package inside a partitioning
round: among the clusters that stay within `maxW` after taking the package
(the `valid_clusters` of the source), the index of least squared distance
from the package to the centroid, ties resolved towards the smaller index
exactly as the stable `sort` over `(dist, i)` pairs resolves them.  `none`
when no cluster is capacity-feasible. -/
def bestClusterAux (pos : Point) (w maxW : ℚ) (centroids : List Point)
    (weights : List ℚ) : List ℕ → Option ℕ → Option ℕ
  | [], best => best
  | i :: rest, best =>
      if weights.getD i 0 + w ≤ maxW then
        match best with
        | none => bestClusterAux pos w maxW centroids weights rest (some i)
        | some j =>
            bestClusterAux pos w maxW centroids weights rest
              (if d2 pos (centroids.getD i (0, 0)) < d2 pos (centroids.getD j (0, 0))
               then some i else some j)
      else bestClusterAux pos w maxW centroids weights rest best

/-- Selection over all clusters, scanning indices in ascending order. -/
def bestCluster (pos : Point) (w maxW : ℚ) (centroids : List Point)
    (weights : List ℚ) : Option ℕ :=
  bestClusterAux pos w maxW centroids weights (List.range centroids.length) none

/-- Placement of one package inside a partitioning round: append it to the
selected capacity-feasible cluster and charge its weight, or leave the
state unchanged when no cluster is feasible. -/
def placePackage (centroids : List Point) (maxW : ℚ)
    (acc : List (List SPackage) × List ℚ) (p : SPackage) :
    List (List SPackage) × List ℚ :=
  match bestCluster (p.x, p.y) p.weight maxW centroids acc.2 with
  | none => acc
  | some j => (acc.1.set j (acc.1.getD j [] ++ [p]), acc.2.set j (acc.2.getD j 0 + p.weight))

/-- One round of the partitioning loop of `auto_create_routes`: reset the
clusters and their accumulated weights, then place each package of the
(weight-sorted) pool in turn. -/
def assignRound (pool : List SPackage) (centroids : List Point) (maxW : ℚ) :
    List (List SPackage) × List ℚ :=
  pool.foldl (placePackage centroids maxW)
    (List.replicate centroids.length [], List.replicate centroids.length 0)

/-- Centroid update at the end of a round: every non-empty cluster moves
its centroid to the arithmetic mean of its members; empty clusters keep
their previous centroid. -/
def recomputeCentroids (clusters : List (List SPackage)) (centroids : List Point) :
    List Point :=
  List.zipWith
    (fun cl c =>
      if cl.isEmpty then c
      else (((cl.map (fun p => p.x)).sum) / cl.length,
            ((cl.map (fun p => p.y)).sum) / cl.length))
    clusters centroids

/-- The `for _ in range(10)` loop: run the stated number of rounds and
return the clusters and weights of the last round together with the final
centroids. -/
def clusterRounds (pool : List SPackage) (maxW : ℚ) :
    ℕ → List Point → (List (List SPackage) × List ℚ) × List Point
  | 0, centroids =>
      ((List.replicate centroids.length [], List.replicate centroids.length 0), centroids)
  | n + 1, centroids =>
      let cw := assignRound pool centroids maxW
      let centroids1 := recomputeCentroids cw.1 centroids
      match n with
      | 0 => (cw, centroids1)
      | m + 1 => clusterRounds pool maxW (m + 1) centroids1

/-- Materialization of the final clusters: every non-empty cluster becomes
a route via `create_route` followed by `optimize_route`; the fresh route id
embeds the current route-store size and the cluster index. -/
noncomputable def materializeClusters (sys0 : DeliverySystem)
    (clusters : List (List SPackage)) : DeliverySystem × List String :=
  clusters.enum.foldl
    (fun acc ic =>
      if ic.2.isEmpty then acc
      else
        let rid := "AR" ++ Nat.repr (acc.1.routes.length + 1) ++ "_" ++ Nat.repr ic.1
        let s1 := (acc.1.create_route rid (ic.2.map (fun p => p.package_id))).1
        let s2 := (s1.optimize_route rid).1
        (s2, acc.2 ++ [rid]))
    (sys0, [])

/-- Model of `DeliverySystem.auto_create_routes`: clamp `k` to the number
of unassigned packages and bail out below one; seed the centroids from the
first `k` unassigned packages in pool order; run ten partitioning rounds
over the weight-sorted pool (the source sorts the pool in place at the top
of every round, which sorts it once and leaves it sorted thereafter); then
materialize the final clusters.  Returns the new route ids. -/
noncomputable def DeliverySystem.auto_create_routes (sys : DeliverySystem) (k : ℤ) :
    DeliverySystem × List String :=
  let max_route_weight : ℚ := 100
  let unassigned := sys.packages.filter (fun p => p.assigned_route_id.isNone)
  let k1 : ℤ := if (unassigned.length : ℤ) < k then (unassigned.length : ℤ) else k
  if k1 < 1 then (sys, [])
  else
    let kn := k1.toNat
    let centroids0 := (unassigned.take kn).map (fun p => (p.x, p.y))
    let pool := sortByWeightDesc unassigned
    let rounds := clusterRounds pool max_route_weight 10 centroids0
    materializeClusters sys rounds.1.1

/-- Data content of the report of `DeliverySystem.get_analytics_report`
(the surrounding string formatting is elided): `success_rate` is `none`
exactly on the "Success Rate: N/A" branch. -/
structure AnalyticsReport where
  total_packages : ℕ
  delivered : ℕ
  pending : ℤ
  success_rate : Option ℚ
  total_distance : ℝ

/-- Model of `DeliverySystem.get_analytics_report`: a pure reduction of the
current state; the guard on `total_packages > 0` protects the success-rate
division. -/
noncomputable def DeliverySystem.get_analytics_report (sys : DeliverySystem) :
    AnalyticsReport :=
  let total_packages := sys.packages.length
  let delivered := (sys.packages.filter (fun p => p.status = "Delivered")).length
  { total_packages := total_packages
    delivered := delivered
    pending := (total_packages : ℤ) - delivered
    success_rate :=
      if total_packages > 0 then some ((delivered : ℚ) / total_packages * 100) else none
    total_distance := ((sys.routes.map (fun rr => rr.2.total_distance)).sum) }

/-- Independent recomputation of the open path walked by `optimize_route`:
the Euclidean legs from the current position through the listed stops in
order, with no closing leg. -/
noncomputable def openPathR (cur : Point) : List Point → ℝ
  | [] => 0
  | p :: rest => euclid cur p + openPathR p rest

end Sys

/-! ### Auxiliary definitions used by the verification -/

/-- Decimal digit string of a natural number, most significant digit
first; this is the list of characters `Nat.toDigitsCore` accumulates for
base ten, used to reason about the freshness of the generated route ids. -/
def repChars (n : ℕ) : List Char :=
  if n < 10 then [Nat.digitChar (n % 10)]
  else repChars (n / 10) ++ [Nat.digitChar (n % 10)]
termination_by n
decreasing_by exact Nat.div_lt_self (by omega) (by omega)

namespace DMS

/-- Invariant carried through the assignment loop for claim C1: every
truck respects its capacity, and a truck not yet bound to a route has a
nonnegative load (so that resetting its load on route creation cannot
raise it). -/
def TrucksOK (l : List Truck) : Prop :=
  ∀ t ∈ l, t.current_load ≤ t.capacity ∧ (t.current_route_id = none → 0 ≤ t.current_load)

/-- The id generated for the route created at counter value `n`. -/
def freshRouteId (n : ℕ) : String := "R" ++ Nat.repr n

/-- The route id the assignment step uses for a truck whose stored route id
is `rid0`: the Python `or` falls back to the fresh id also on the empty
string. -/
def routeIdOf (rid0 : String) (cnt : ℕ) : String :=
  if rid0 = "" then freshRouteId cnt else rid0

/-- The route object built by the route-creation block of the assignment
step. -/
def newRouteFor (s : AssignState) (truck : Truck) (driver : Driver) : Route :=
  { route_id := freshRouteId s.route_counter, truck_id := truck.truck_id,
    driver_id := driver.driver_id }

/-- The state after the route-creation block of the assignment step: the
counter advances, the chosen truck is bound to the fresh route with its
load reset, the current driver is bound, and an empty route is stored. -/
def creationState (s : AssignState) (ti : ℕ) (truck : Truck) (driver : Driver) : AssignState :=
  { s with
      route_counter := s.route_counter + 1,
      trucks := s.trucks.set ti (truck.assign_route (freshRouteId s.route_counter) 0),
      drivers := s.drivers.set s.driver_index
        { driver with current_route_id := some (freshRouteId s.route_counter) },
      routes := updateRoute s.routes (freshRouteId s.route_counter)
        (newRouteFor s truck driver) }

/-- The state after the commit block of the assignment step: the package is
attached to the route under `route_id`, the chosen truck (in its
post-creation form `truck1`) is charged the package weight, and both
round-robin cursors advance. -/
def commitState (s0 s1 : AssignState) (pkg : Package) (ti : ℕ) (truck1 : Truck)
    (route_id : String) (route : Route) : AssignState :=
  { s1 with
      routes := updateRoute s1.routes route_id (route.add_package pkg).1,
      trucks := s1.trucks.set ti
        { truck1 with current_load := truck1.current_load + pkg.weight },
      driver_index := (s0.driver_index + 1) % s0.drivers.length,
      truck_index := (ti + 1) % s0.trucks.length }

/-- Invariant for claim C2: every route key of the produced dictionary was
generated from a counter value below the current one, so the next
generated key is fresh. -/
def RoutesFresh (s : AssignState) : Prop :=
  ∀ kv ∈ s.routes, ∃ m, m < s.route_counter ∧ kv.1 = freshRouteId m

/-- Invariant for claim C2: a processed package is in exactly one of two
states, assigned (its id recorded on a stored route, status untouched) or
marked with the Exception status while unassigned. -/
def PackageSettled (s : AssignState) (p : Package) : Prop :=
  ((∃ rid r, p.assigned_route_id = some rid ∧ lookupRoute s.routes rid = some r ∧
      p.package_id ∈ r.package_ids) ∧ p.status ≠ "Exception") ∨
  (p.assigned_route_id = none ∧ p.status = "Exception")

/-- Invariant threaded through the assignment loop: the stored route keys
are counter-generated (so the next generated key is fresh) and every
stored route's own id equals its dictionary key. -/
def StateOK (s : AssignState) : Prop :=
  RoutesFresh s ∧ ∀ kv ∈ s.routes, kv.2.route_id = kv.1

/-- One assignment step only grows the stored routes: every route
reachable by key before the step is reachable afterwards with at least the
same recorded package ids. -/
def RoutesMono (s s1 : AssignState) : Prop :=
  ∀ rid r, lookupRoute s.routes rid = some r →
    ∃ r1, lookupRoute s1.routes rid = some r1 ∧
      ∀ pid ∈ r.package_ids, pid ∈ r1.package_ids

/-- All package ids recorded on stored routes come from the listed pool
(claim C10). -/
def IdsFrom (allowed : List String) (routes : List (String × Route)) : Prop :=
  ∀ kv ∈ routes, ∀ pid ∈ kv.2.package_ids, pid ∈ allowed

/-- Scenario inputs: two weight-one packages at the origin and at
`(10, 10)`. -/
def pkgsB : List Package :=
  [ { package_id := "P1", label_address := ⟨"0,0", 0, 0⟩, status := "Created", weight := 1 },
    { package_id := "P2", label_address := ⟨"10,10", 10, 10⟩, status := "Created", weight := 1 } ]

/-- Scenario inputs: one truck of capacity ten. -/
def trucksB : List Truck := [ { truck_id := "T1", capacity := 10 } ]

/-- Scenario inputs: a single driver. -/
def driversB : List Driver := [ { driver_id := "D1", name := "Dana", license_number := "L1" } ]

/-- A truck whose recorded load is negative yet below its capacity. -/
def truckNeg : Truck := { truck_id := "T1", capacity := 3, current_load := -5 }

/-- A package of weight eight, towards the capacity counterexample. -/
def pkgEight : Package :=
  { package_id := "P1", label_address := ⟨"a", 0, 0⟩, status := "Created", weight := 8 }

/-- A package that already entered the run assigned to a route. -/
def pkgPre : Package :=
  { package_id := "P0", label_address := ⟨"b", 5, 5⟩, status := "InTransit", weight := 2,
    assigned_route_id := some "OLD" }

/-- The planning result of the two-package scenario (`Option.getD` only
peels the `some`; the run returns normally). -/
def resB : PlanResult :=
  (NearestNeighborStrategy.compute_routes pkgsB trucksB driversB).getD ⟨[], [], [], []⟩

/-- The single route of the two-package scenario. -/
def routeB : Route :=
  (resB.routes.getD 0 ("X", { route_id := "X", truck_id := "X", driver_id := "X" })).2

/-- First terminal state of claim C2 on the returned plan: the package is
assigned, its id is recorded on the returned route stored under its
recorded route id, and it is not marked with the Exception status. -/
def AssignedIn (res : PlanResult) (q : Package) : Prop :=
  q.status ≠ "Exception" ∧ ∃ rid, q.assigned_route_id = some rid ∧
    ∃ kv ∈ res.routes, kv.1 = rid ∧ q.package_id ∈ kv.2.package_ids

/-- Second terminal state of claim C2: the package is left unassigned and
marked with the Exception status. -/
def ExceptedOut (q : Package) : Prop :=
  q.assigned_route_id = none ∧ q.status = "Exception"

/-- Exactly one of the two terminal states of claim C2 holds. -/
def SettledIn (res : PlanResult) (q : Package) : Prop :=
  (AssignedIn res q ∧ ¬ ExceptedOut q) ∨ (ExceptedOut q ∧ ¬ AssignedIn res q)

/-- The planning result of the scenario placing a pre-assigned package
ahead of an unassigned one (`Option.getD` only peels the `some`; the run
returns normally). -/
def resPre : PlanResult :=
  (NearestNeighborStrategy.compute_routes [pkgPre, pkgEight] trucksB driversB).getD
    ⟨[], [], [], []⟩

end DMS

namespace Sys

/-- Nearest-neighbor sortedness from a starting point: every stop of the
list is at least as close to the current position as all later stops, in
squared Euclidean distance.  The order produced by the sequencing loop
satisfies this, and a list satisfying it is left unchanged by a second
sequencing run. -/
def NNSorted : Point → List Point → Prop
  | _, [] => True
  | cur, p :: rest => (∀ q ∈ rest, d2 cur p ≤ d2 cur q) ∧ NNSorted p rest

/-- A package too heavy for any cluster of the partitioner. -/
def pHeavy : SPackage := { package_id := "P1", x := 0, y := 0, weight := 200 }

/-- A one-package state for the partitioning counterexample. -/
def sysC2 : DeliverySystem := ⟨[pHeavy], []⟩

/-- A route holding the single stop `(0, 5)` with a zero total. -/
def routeW : SRoute := { route_id := "R1", stops := [((0 : ℚ), (5 : ℚ))] }

/-- A state holding `routeW` and no packages. -/
def sysW : DeliverySystem := ⟨[], [("R1", routeW)]⟩

/-- Two light unassigned packages, towards the clamping witness. -/
def sysTwo : DeliverySystem :=
  ⟨[ { package_id := "P1", x := 0, y := 0, weight := 1 },
     { package_id := "P2", x := 3, y := 4, weight := 2 } ], []⟩

/-- The sealed route the sequencing branch of `optimize_route` stores: the
reordered stops, the accumulated total, and the optimized flag. -/
noncomputable def seqRouteOf (r : SRoute) : SRoute :=
  { r with
      stops := (optLoop r.stops.length r.stops (0, 0) r.total_distance).1,
      total_distance := (optLoop r.stops.length r.stops (0, 0) r.total_distance).2,
      optimized := true }

/-- Independent recomputation of a closed Euclidean tour: the legs from the
current position through the listed stops in order plus the final leg back
to the depot at the origin. -/
noncomputable def closedPathR (cur : Point) : List Point → ℝ
  | [] => euclid cur (0, 0)
  | p :: rest => euclid cur p + closedPathR p rest

/-- How `auto_create_routes` may touch a stored package: it either leaves
it alone or assigns it to a route, setting the status to "In Transit"; the
id, location and weight never change, and no package is ever marked
Exception. -/
def PkgEvolves (p q : SPackage) : Prop :=
  q = p ∨ (q.package_id = p.package_id ∧ q.x = p.x ∧ q.y = p.y ∧ q.weight = p.weight ∧
    q.status = "In Transit" ∧ q.assigned_route_id ≠ none)

/-- The loop body of the materialization pass of `auto_create_routes`,
named for reasoning: identical to the function folded by
`materializeClusters`. -/
noncomputable def materializeStep (acc : DeliverySystem × List String)
    (ic : ℕ × List SPackage) : DeliverySystem × List String :=
  if ic.2.isEmpty then acc
  else
    let rid := "AR" ++ Nat.repr (acc.1.routes.length + 1) ++ "_" ++ Nat.repr ic.1
    let s1 := (acc.1.create_route rid (ic.2.map (fun p => p.package_id))).1
    let s2 := (s1.optimize_route rid).1
    (s2, acc.2 ++ [rid])

end Sys

/-! ### Helper lemmas -/

theorem digitChar_injOn : ∀ a < 10, ∀ b < 10, Nat.digitChar a = Nat.digitChar b → a = b := by
  decide

theorem repChars_ne_nil (n : ℕ) : repChars n ≠ [] := by
  rw [repChars]
  split <;> simp

theorem repChars_cons_or (n : ℕ) :
    (n < 10 ∧ repChars n = [Nat.digitChar (n % 10)]) ∨
    (¬ n < 10 ∧ repChars n = repChars (n / 10) ++ [Nat.digitChar (n % 10)]) := by
  by_cases hn : n < 10
  · exact Or.inl ⟨hn, by rw [repChars]; simp [hn]⟩
  · exact Or.inr ⟨hn, by rw [repChars]; simp [hn]⟩

theorem repChars_inj : ∀ m n : ℕ, repChars m = repChars n → m = n := by
  intro m
  induction m using Nat.strong_induction_on with
  | _ m ih =>
    intro n h
    rcases repChars_cons_or m with ⟨hm, em⟩ | ⟨hm, em⟩ <;>
      rcases repChars_cons_or n with ⟨hn, en⟩ | ⟨hn, en⟩ <;> rw [em, en] at h
    · simp only [List.cons.injEq] at h
      have := digitChar_injOn (m % 10) (by omega) (n % 10) (by omega) h.1
      omega
    · exfalso
      have hl := congrArg List.length h
      simp only [List.length_cons, List.length_append, List.length_nil] at hl
      have h0 : (repChars (n / 10)).length = 0 := by omega
      exact repChars_ne_nil (n / 10) (List.length_eq_zero.mp h0)
    · exfalso
      have hl := congrArg List.length h
      simp only [List.length_cons, List.length_append, List.length_nil] at hl
      have h0 : (repChars (m / 10)).length = 0 := by omega
      exact repChars_ne_nil (m / 10) (List.length_eq_zero.mp h0)
    · have hparts := List.append_inj' h (by simp)
      have h1 : m / 10 = n / 10 :=
        ih (m / 10) (Nat.div_lt_self (by omega) (by omega)) (n / 10) hparts.1
      have h2 : m % 10 = n % 10 := by
        have hd := hparts.2
        simp only [List.cons.injEq] at hd
        exact digitChar_injOn (m % 10) (by omega) (n % 10) (by omega) hd.1
      omega

theorem toDigitsCore_eq_repChars :
    ∀ (fuel n : ℕ) (acc : List Char), n < fuel →
      Nat.toDigitsCore 10 fuel n acc = repChars n ++ acc := by
  intro fuel
  induction fuel with
  | zero => omega
  | succ f ih =>
    intro n acc hlt
    show (let d := Nat.digitChar (n % 10); let n' := n / 10;
          if n' = 0 then d :: acc else Nat.toDigitsCore 10 f n' (d :: acc)) =
        repChars n ++ acc
    by_cases h0 : n / 10 = 0
    · have hn : n < 10 := by omega
      rw [repChars]
      simp [h0, hn]
    · have hn : ¬ n < 10 := by
        intro hc
        exact h0 (Nat.div_eq_of_lt hc)
      have hrec : n / 10 < f := by
        have := Nat.div_lt_self (n := n) (by omega) (by omega : 1 < 10)
        omega
      rw [repChars]
      simp only [if_neg h0, if_neg hn]
      rw [ih (n / 10) (Nat.digitChar (n % 10) :: acc) hrec]
      simp

theorem natRepr_inj (m n : ℕ) (h : Nat.repr m = Nat.repr n) : m = n := by
  have hm : Nat.repr m = (repChars m).asString := by
    show (Nat.toDigits 10 m).asString = (repChars m).asString
    rw [Nat.toDigits, toDigitsCore_eq_repChars (m + 1) m [] (by omega)]
    simp
  have hn : Nat.repr n = (repChars n).asString := by
    show (Nat.toDigits 10 n).asString = (repChars n).asString
    rw [Nat.toDigits, toDigitsCore_eq_repChars (n + 1) n [] (by omega)]
    simp
  rw [hm, hn] at h
  apply repChars_inj
  simpa [List.asString, String.ext_iff] using h

namespace DMS

theorem freshRouteId_inj (m n : ℕ) (h : freshRouteId m = freshRouteId n) : m = n := by
  apply natRepr_inj
  have hd := congrArg String.data h
  simp only [freshRouteId, String.data_append] at hd
  simp only [String.data, List.cons_append, List.nil_append, List.cons.injEq] at hd
  exact String.ext hd.2

theorem lookupRoute_update_self (l : List (String × Route)) (k : String) (v : Route) :
    lookupRoute (updateRoute l k v) k = some v := by
  induction l with
  | nil => simp [updateRoute, lookupRoute]
  | cons kv rest ih =>
    obtain ⟨k0, r0⟩ := kv
    by_cases hk : k0 = k
    · simp [updateRoute, lookupRoute, hk]
    · simp [updateRoute, lookupRoute, hk, ih]

theorem lookupRoute_update_ne (l : List (String × Route)) (k k' : String) (v : Route)
    (h : k' ≠ k) : lookupRoute (updateRoute l k v) k' = lookupRoute l k' := by
  induction l with
  | nil =>
    simp only [updateRoute, lookupRoute]
    rw [if_neg (fun hc => h hc.symm)]
  | cons kv rest ih =>
    obtain ⟨k0, r0⟩ := kv
    by_cases hk : k0 = k
    · subst hk
      have hne : ¬ k0 = k' := fun hc => h hc.symm
      rw [updateRoute, if_pos rfl, lookupRoute, lookupRoute, if_neg hne, if_neg hne]
    · rw [updateRoute, if_neg hk, lookupRoute, lookupRoute]
      by_cases hk' : k0 = k'
      · rw [if_pos hk', if_pos hk']
      · rw [if_neg hk', if_neg hk', ih]

theorem mem_updateRoute (l : List (String × Route)) (k : String) (v : Route)
    (kv : String × Route) (h : kv ∈ updateRoute l k v) : kv = (k, v) ∨ kv ∈ l := by
  induction l with
  | nil =>
    rw [updateRoute] at h
    exact Or.inl (by simpa using h)
  | cons kv0 rest ih =>
    obtain ⟨k0, r0⟩ := kv0
    by_cases hk : k0 = k
    · rw [updateRoute, if_pos hk] at h
      rcases List.mem_cons.mp h with h1 | h1
      · rw [hk] at h1
        exact Or.inl h1
      · exact Or.inr (List.mem_cons_of_mem _ h1)
    · rw [updateRoute, if_neg hk] at h
      rcases List.mem_cons.mp h with h1 | h1
      · exact Or.inr (by simp [h1])
      · rcases ih h1 with h2 | h2
        · exact Or.inl h2
        · exact Or.inr (List.mem_cons_of_mem _ h2)

theorem lookupRoute_mem (l : List (String × Route)) (k : String) (r : Route)
    (h : lookupRoute l k = some r) : (k, r) ∈ l := by
  induction l with
  | nil => simp [lookupRoute] at h
  | cons kv rest ih =>
    obtain ⟨k0, r0⟩ := kv
    rw [lookupRoute] at h
    by_cases hk : k0 = k
    · rw [if_pos hk] at h
      obtain rfl : r0 = r := by simpa using h
      simp [hk]
    · rw [if_neg hk] at h
      exact List.mem_cons_of_mem _ (ih h)

theorem scanTrucks_capacity (trucks : List Truck) (w : ℚ) :
    ∀ (fuel cur ti : ℕ), scanTrucks trucks w fuel cur = some ti →
      ∃ t, trucks.get? ti = some t ∧ t.check_capacity w = true := by
  intro fuel
  induction fuel with
  | zero => intro cur ti h; simp [scanTrucks] at h
  | succ f ih =>
    intro cur ti h
    rw [scanTrucks] at h
    cases hget : trucks.get? cur with
    | none => rw [hget] at h; simp at h
    | some t =>
      rw [hget] at h
      by_cases hc : t.check_capacity w
      · simp only [hc, if_true] at h
        obtain rfl : cur = ti := by simpa using h
        exact ⟨t, hget, hc⟩
      · simp only [hc, if_false, Bool.false_eq_true] at h
        exact ih _ _ h

end DMS

namespace DMS

theorem processPackage_cases (s : AssignState) (pkg : Package) (out : AssignState × Package)
    (h : processPackage s pkg = some out) :
    (out.1 = s ∧ out.2 = { pkg with status := "Exception" } ∧
      scanTrucks s.trucks pkg.weight s.trucks.length s.truck_index = none) ∨
    (∃ ti truck driver,
      scanTrucks s.trucks pkg.weight s.trucks.length s.truck_index = some ti ∧
      s.trucks.get? ti = some truck ∧
      s.drivers.get? s.driver_index = some driver ∧
      truck.check_capacity pkg.weight = true ∧
      ((truck.current_route_id = none ∧
        out = (commitState s (creationState s ti truck driver) pkg ti
                 (truck.assign_route (freshRouteId s.route_counter) 0)
                 (freshRouteId s.route_counter) (newRouteFor s truck driver),
               ((newRouteFor s truck driver).add_package pkg).2)) ∨
       (∃ rid0, truck.current_route_id = some rid0 ∧
        ∃ route, lookupRoute s.routes (routeIdOf rid0 s.route_counter) = some route ∧
        out = (commitState s s pkg ti truck (routeIdOf rid0 s.route_counter) route,
               (route.add_package pkg).2)))) := by
  rw [processPackage] at h
  cases hscan : scanTrucks s.trucks pkg.weight s.trucks.length s.truck_index with
  | none =>
    rw [hscan] at h
    simp only [Option.some.injEq] at h
    left
    rw [← h]
    exact ⟨rfl, rfl, rfl⟩
  | some ti =>
    rw [hscan] at h
    simp only [] at h
    have hcap : ∀ t : Truck, s.trucks.get? ti = some t → t.check_capacity pkg.weight = true := by
      intro t ht
      obtain ⟨t2, ht2, hc2⟩ := scanTrucks_capacity s.trucks pkg.weight _ _ _ hscan
      rw [ht] at ht2
      obtain rfl : t2 = t := by simpa using ht2.symm
      exact hc2
    cases hget : s.trucks.get? ti with
    | none => rw [hget] at h; simp at h
    | some truck =>
      cases hgetd : s.drivers.get? s.driver_index with
      | none => rw [hget, hgetd] at h; simp at h
      | some driver =>
        rw [hget, hgetd] at h
        simp only [] at h
        refine Or.inr ⟨ti, truck, driver, rfl, hget, rfl, hcap truck hget, ?_⟩
        cases hcr : truck.current_route_id with
        | none =>
          left
          refine ⟨rfl, ?_⟩
          simp only [hcr, Option.isNone_none, if_true] at h
          rw [lookupRoute_update_self] at h
          simp only [Option.some.injEq] at h
          rw [← h]
          rfl
        | some rid0 =>
          right
          refine ⟨rid0, rfl, ?_⟩
          simp only [hcr, Option.isNone_some, if_false, Bool.false_eq_true] at h
          cases hlook : lookupRoute s.routes (if rid0 = "" then "R" ++ Nat.repr s.route_counter else rid0) with
          | none => rw [hlook] at h; simp at h
          | some route =>
            rw [hlook] at h
            simp only [Option.some.injEq] at h
            refine ⟨route, ?_, ?_⟩
            · exact hlook
            · rw [← h]
              simp [commitState, routeIdOf, freshRouteId, hcr]

end DMS

namespace DMS

theorem processPackage_trucksOK (s : AssignState) (pkg : Package) (out : AssignState × Package)
    (hOK : TrucksOK s.trucks) (h : processPackage s pkg = some out) :
    TrucksOK out.1.trucks := by
  rcases processPackage_cases s pkg out h with ⟨h1, _, _⟩ |
    ⟨ti, truck, driver, _, hget, _, hcap, hbr⟩
  · rw [h1]; exact hOK
  · have htmem : truck ∈ s.trucks := List.get?_mem hget
    have htOK := hOK truck htmem
    have hcap' : truck.current_load + pkg.weight ≤ truck.capacity := by
      simpa [Truck.check_capacity, decide_eq_true_eq] using hcap
    rcases hbr with ⟨hcr, hout⟩ | ⟨rid0, hcr, route, hlook, hout⟩
    · rw [hout]
      intro t ht
      simp only [commitState, creationState] at ht
      rw [List.set_set] at ht
      rcases List.mem_or_eq_of_mem_set ht with hmem | rfl
      · exact hOK t hmem
      · have h0 : (0 : ℚ) ≤ truck.current_load := htOK.2 hcr
        constructor
        · simp only [Truck.assign_route]
          linarith
        · intro hnone
          simp [Truck.assign_route] at hnone
    · rw [hout]
      intro t ht
      simp only [commitState] at ht
      rcases List.mem_or_eq_of_mem_set ht with hmem | rfl
      · exact hOK t hmem
      · constructor
        · simpa using hcap'
        · intro hnone
          simp only at hnone
          rw [hcr] at hnone
          exact absurd hnone (by simp)

theorem assignLoop_trucksOK (l : List Package) : ∀ (s : AssignState) (out : AssignState × List Package),
    TrucksOK s.trucks → assignLoop s l = some out → TrucksOK out.1.trucks := by
  induction l with
  | nil =>
    intro s out hOK h
    rw [assignLoop] at h
    simp only [Option.some.injEq] at h
    rw [← h]
    exact hOK
  | cons pkg rest ih =>
    intro s out hOK h
    rw [assignLoop] at h
    cases hstep : processPackage s pkg with
    | none => rw [hstep] at h; simp at h
    | some sp =>
      obtain ⟨s1, p1⟩ := sp
      rw [hstep] at h
      simp only [] at h
      cases hloop : assignLoop s1 rest with
      | none => rw [hloop] at h; simp at h
      | some sr =>
        obtain ⟨s2, rest1⟩ := sr
        rw [hloop] at h
        simp only [Option.some.injEq] at h
        have h1 := processPackage_trucksOK s pkg (s1, p1) hOK hstep
        have h2 := ih s1 (s2, rest1) h1 hloop
        rw [← h]
        exact h2

end DMS

namespace DMS

theorem selectNearest_mem (cx cy : ℤ) : ∀ (rest : List Address) (s0 : Address),
    selectNearest cx cy s0 rest ∈ s0 :: rest := by
  intro rest
  induction rest with
  | nil => intro s0; simp [selectNearest]
  | cons x xs ih =>
    intro s0
    rw [selectNearest, List.foldl_cons]
    have h := ih (if GPSSystem.distance cx cy x.x x.y < GPSSystem.distance cx cy s0.x s0.y
      then x else s0)
    rw [selectNearest] at h
    rcases List.mem_cons.mp h with h1 | h1
    · rw [h1]
      by_cases hc : GPSSystem.distance cx cy x.x x.y < GPSSystem.distance cx cy s0.x s0.y
      · rw [if_pos hc]
        simp
      · rw [if_neg hc]
        simp
    · simp [h1]

theorem nnLoop_spec : ∀ (fuel : ℕ) (unvisited : List Address) (cx cy total : ℤ),
    unvisited.length = fuel →
    (nnLoop fuel unvisited cx cy total).2 =
      total + pathDist cx cy (nnLoop fuel unvisited cx cy total).1 := by
  intro fuel
  induction fuel with
  | zero =>
    intro unvisited cx cy total hlen
    obtain rfl := List.length_eq_zero.mp hlen
    rw [nnLoop, pathDist]
  | succ f ih =>
    intro unvisited cx cy total hlen
    cases unvisited with
    | nil => simp at hlen
    | cons st rest =>
      have hmem : selectNearest cx cy st rest ∈ st :: rest := selectNearest_mem cx cy rest st
      have hlen2 : ((st :: rest).erase (selectNearest cx cy st rest)).length = f := by
        rw [List.length_erase_of_mem hmem]
        simp only [List.length_cons] at hlen ⊢
        omega
      have hrec := ih ((st :: rest).erase (selectNearest cx cy st rest))
        (selectNearest cx cy st rest).x (selectNearest cx cy st rest).y
        (total + GPSSystem.distance cx cy (selectNearest cx cy st rest).x
          (selectNearest cx cy st rest).y) hlen2
      rw [nnLoop]
      simp only []
      rw [pathDist, hrec]
      ring

end DMS

namespace Sys

theorem selNearestE_mem (cur : Point) : ∀ (rest : List Point) (s0 : Point),
    selNearestE cur s0 rest ∈ s0 :: rest := by
  intro rest
  induction rest with
  | nil => intro s0; simp [selNearestE]
  | cons x xs ih =>
    intro s0
    rw [selNearestE, List.foldl_cons]
    have h := ih (if d2 cur x < d2 cur s0 then x else s0)
    rw [selNearestE] at h
    rcases List.mem_cons.mp h with h1 | h1
    · rw [h1]
      by_cases hc : d2 cur x < d2 cur s0
      · rw [if_pos hc]
        simp
      · rw [if_neg hc]
        simp
    · simp [h1]

theorem selNearestE_min (cur : Point) : ∀ (rest : List Point) (s0 : Point),
    ∀ q ∈ s0 :: rest, d2 cur (selNearestE cur s0 rest) ≤ d2 cur q := by
  intro rest
  induction rest with
  | nil =>
    intro s0 q hq
    simp at hq
    simp [selNearestE, hq]
  | cons x xs ih =>
    intro s0 q hq
    rw [selNearestE, List.foldl_cons]
    have hstep := ih (if d2 cur x < d2 cur s0 then x else s0)
    rw [selNearestE] at hstep
    have hseed : d2 cur (if d2 cur x < d2 cur s0 then x else s0) ≤ d2 cur s0 ∧
        d2 cur (if d2 cur x < d2 cur s0 then x else s0) ≤ d2 cur x := by
      by_cases hc : d2 cur x < d2 cur s0
      · rw [if_pos hc]
        exact ⟨le_of_lt hc, le_refl _⟩
      · rw [if_neg hc]
        exact ⟨le_refl _, le_of_not_lt hc⟩
    rcases List.mem_cons.mp hq with rfl | hq1
    · exact le_trans (hstep _ (List.mem_cons_self _ _)) hseed.1
    · rcases List.mem_cons.mp hq1 with rfl | hq2
      · exact le_trans (hstep _ (List.mem_cons_self _ _)) hseed.2
      · exact hstep q (List.mem_cons_of_mem _ hq2)

theorem selNearestE_keep (cur : Point) : ∀ (rest : List Point) (s0 : Point),
    (∀ q ∈ rest, d2 cur s0 ≤ d2 cur q) → selNearestE cur s0 rest = s0 := by
  intro rest
  induction rest with
  | nil => intro s0 _; simp [selNearestE]
  | cons x xs ih =>
    intro s0 hmin
    rw [selNearestE, List.foldl_cons]
    have hx : ¬ d2 cur x < d2 cur s0 := not_lt.mpr (hmin x (List.mem_cons_self _ _))
    rw [if_neg hx]
    have := ih s0 (fun q hq => hmin q (List.mem_cons_of_mem _ hq))
    rw [selNearestE] at this
    exact this

theorem optLoop_spec : ∀ (fuel : ℕ) (pending : List Point) (cur : Point) (total : ℝ),
    pending.length = fuel →
    (optLoop fuel pending cur total).2 =
      total + openPathR cur (optLoop fuel pending cur total).1 := by
  intro fuel
  induction fuel with
  | zero =>
    intro pending cur total hlen
    obtain rfl := List.length_eq_zero.mp hlen
    rw [optLoop, openPathR]
    ring
  | succ f ih =>
    intro pending cur total hlen
    cases pending with
    | nil => simp at hlen
    | cons st rest =>
      have hmem : selNearestE cur st rest ∈ st :: rest := selNearestE_mem cur rest st
      have hlen2 : ((st :: rest).erase (selNearestE cur st rest)).length = f := by
        rw [List.length_erase_of_mem hmem]
        simp only [List.length_cons] at hlen ⊢
        omega
      have hrec := ih ((st :: rest).erase (selNearestE cur st rest))
        (selNearestE cur st rest)
        (total + euclid cur (selNearestE cur st rest)) hlen2
      rw [optLoop]
      simp only []
      rw [openPathR, hrec]
      ring

theorem optLoop_length : ∀ (fuel : ℕ) (pending : List Point) (cur : Point) (total : ℝ),
    pending.length = fuel → (optLoop fuel pending cur total).1.length = pending.length := by
  intro fuel
  induction fuel with
  | zero =>
    intro pending cur total hlen
    obtain rfl := List.length_eq_zero.mp hlen
    rw [optLoop]
  | succ f ih =>
    intro pending cur total hlen
    cases pending with
    | nil => simp at hlen
    | cons st rest =>
      have hmem : selNearestE cur st rest ∈ st :: rest := selNearestE_mem cur rest st
      have hlen2 : ((st :: rest).erase (selNearestE cur st rest)).length = f := by
        rw [List.length_erase_of_mem hmem]
        simp only [List.length_cons] at hlen ⊢
        omega
      have hrec := ih ((st :: rest).erase (selNearestE cur st rest))
        (selNearestE cur st rest)
        (total + euclid cur (selNearestE cur st rest)) hlen2
      rw [optLoop]
      simp only [List.length_cons]
      rw [hrec, hlen2]
      simp only [List.length_cons] at hlen
      omega

theorem optLoop_subset : ∀ (fuel : ℕ) (pending : List Point) (cur : Point) (total : ℝ)
    (x : Point), x ∈ (optLoop fuel pending cur total).1 → x ∈ pending := by
  intro fuel
  induction fuel with
  | zero =>
    intro pending cur total x hx
    rw [optLoop] at hx
    simp at hx
  | succ f ih =>
    intro pending cur total x hx
    cases pending with
    | nil => rw [optLoop] at hx; simp at hx
    | cons st rest =>
      rw [optLoop] at hx
      simp only [List.mem_cons] at hx
      rcases hx with rfl | hx1
      · exact selNearestE_mem cur rest st
      · exact List.mem_of_mem_erase (ih _ _ _ x hx1)

end Sys

namespace Sys

theorem optLoop_NNSorted : ∀ (fuel : ℕ) (pending : List Point) (cur : Point) (total : ℝ),
    pending.length = fuel → NNSorted cur (optLoop fuel pending cur total).1 := by
  intro fuel
  induction fuel with
  | zero =>
    intro pending cur total hlen
    obtain rfl := List.length_eq_zero.mp hlen
    rw [optLoop]
    exact trivial
  | succ f ih =>
    intro pending cur total hlen
    cases pending with
    | nil => simp at hlen
    | cons st rest =>
      have hmem : selNearestE cur st rest ∈ st :: rest := selNearestE_mem cur rest st
      have hlen2 : ((st :: rest).erase (selNearestE cur st rest)).length = f := by
        rw [List.length_erase_of_mem hmem]
        simp only [List.length_cons] at hlen ⊢
        omega
      rw [optLoop]
      refine ⟨?_, ?_⟩
      · intro q hq
        have hq2 : q ∈ st :: rest :=
          List.mem_of_mem_erase (optLoop_subset f _ _ _ q hq)
        exact selNearestE_min cur rest st q hq2
      · exact ih _ _ _ hlen2

theorem optLoop_idem : ∀ (l : List Point) (cur : Point) (total : ℝ), NNSorted cur l →
    optLoop l.length l cur total = (l, total + openPathR cur l) := by
  intro l
  induction l with
  | nil =>
    intro cur total _
    rw [List.length_nil, optLoop, openPathR]
    simp
  | cons p rest ih =>
    intro cur total hsort
    obtain ⟨hmin, hrest⟩ := hsort
    have hsel : selNearestE cur p rest = p := selNearestE_keep cur rest p hmin
    rw [List.length_cons, optLoop.eq_def]
    simp only [hsel, List.erase_cons_head]
    rw [ih p (total + euclid cur p) hrest, openPathR]
    simp only [Prod.mk.injEq, true_and]
    ring

theorem lookup_update_self_sys (l : List (String × SRoute)) (k : String) (v : SRoute) :
    lookupRoute (updateRoute l k v) k = some v := by
  induction l with
  | nil => simp [updateRoute, lookupRoute]
  | cons kv rest ih =>
    obtain ⟨k0, r0⟩ := kv
    by_cases hk : k0 = k
    · simp [updateRoute, lookupRoute, hk]
    · simp [updateRoute, lookupRoute, hk, ih]

theorem lookup_update_ne_sys (l : List (String × SRoute)) (k k' : String) (v : SRoute)
    (h : k' ≠ k) : lookupRoute (updateRoute l k v) k' = lookupRoute l k' := by
  induction l with
  | nil =>
    simp only [updateRoute, lookupRoute]
    rw [if_neg (fun hc => h hc.symm)]
  | cons kv rest ih =>
    obtain ⟨k0, r0⟩ := kv
    by_cases hk : k0 = k
    · subst hk
      have hne : ¬ k0 = k' := fun hc => h hc.symm
      rw [updateRoute, if_pos rfl, lookupRoute, lookupRoute, if_neg hne, if_neg hne]
    · rw [updateRoute, if_neg hk, lookupRoute, lookupRoute]
      by_cases hk' : k0 = k'
      · rw [if_pos hk', if_pos hk']
      · rw [if_neg hk', if_neg hk', ih]

theorem optimize_route_not_found (sys : DeliverySystem) (rid : String)
    (h : lookupRoute sys.routes rid = none) :
    sys.optimize_route rid = (sys, false) := by
  rw [DeliverySystem.optimize_route, h]

theorem optimize_route_found (sys : DeliverySystem) (rid : String) (r : SRoute)
    (h : lookupRoute sys.routes rid = some r) (hne : r.stops ≠ []) :
    (sys.optimize_route rid).2 = true ∧
    (sys.optimize_route rid).1.packages = sys.packages ∧
    (sys.optimize_route rid).1.routes = updateRoute sys.routes rid (seqRouteOf r) := by
  rw [DeliverySystem.optimize_route, h]
  simp only [List.isEmpty_eq_true]
  rw [if_neg hne]
  exact ⟨rfl, rfl, rfl⟩

end Sys

/-! ### Claim theorems -/

/-- C1 (amended): for every planning run of
`NearestNeighborStrategy.compute_routes`, if every truck satisfies
`0 <= current_load` and `current_load <= capacity` before the run, then
every truck still satisfies `current_load <= capacity` after the run
returns.  (The nonnegativity condition is forced by the counterexample
below: route creation resets the load to zero before committing the
package weight.) -/
theorem C1_capacity_invariant (packages : List DMS.Package) (trucks : List DMS.Truck)
    (drivers : List DMS.Driver) (res : DMS.PlanResult)
    (hpre : ∀ t ∈ trucks, 0 ≤ t.current_load ∧ t.current_load ≤ t.capacity)
    (hrun : DMS.NearestNeighborStrategy.compute_routes packages trucks drivers = some res) :
    ∀ t ∈ res.trucks, t.current_load ≤ t.capacity := by
  rw [DMS.NearestNeighborStrategy.compute_routes] at hrun
  by_cases hempty : trucks.isEmpty || drivers.isEmpty
  · rw [if_pos hempty] at hrun
    simp only [Option.some.injEq] at hrun
    rw [← hrun]
    intro t ht
    exact (hpre t ht).2
  · rw [if_neg hempty] at hrun
    cases hloop : DMS.assignLoop ⟨[], trucks, drivers, 0, 0, 1⟩
        (packages.filter (fun p => p.assigned_route_id.isNone)) with
    | none => rw [hloop] at hrun; simp at hrun
    | some sout =>
      obtain ⟨s2, upd⟩ := sout
      rw [hloop] at hrun
      simp only [Option.some.injEq] at hrun
      have hOK : DMS.TrucksOK trucks := fun t ht => ⟨(hpre t ht).2, fun _ => (hpre t ht).1⟩
      have h2 := DMS.assignLoop_trucksOK _ ⟨[], trucks, drivers, 0, 0, 1⟩ (s2, upd) hOK hloop
      rw [← hrun]
      intro t ht
      exact (h2 t ht).1

/-- C1 counterexample: the claim as stated fails.  A truck with
`current_load = -5 <= capacity = 3` satisfies the stated precondition; a
package of weight eight passes `check_capacity` (`-5 + 8 <= 3`), route
creation resets the load to zero, and the commit leaves the truck at load
eight, strictly above its capacity of three. -/
theorem C1_counterexample :
    (∀ t ∈ [DMS.truckNeg], t.current_load ≤ t.capacity) ∧
    (DMS.NearestNeighborStrategy.compute_routes [DMS.pkgEight] [DMS.truckNeg]
        DMS.driversB).map
      (fun res => res.trucks.all (fun t => t.current_load ≤ t.capacity)) = some false := by
  constructor
  · with_unfolding_all decide
  · with_unfolding_all decide

/-- C1 witness: in the two-package scenario the hypotheses of
`C1_capacity_invariant` hold and the single truck of the result respects
its capacity. -/
theorem C1_capacity_invariant_witness :
    ((DMS.resB.trucks.getD 0 DMS.truckNeg).current_load ≤
      (DMS.resB.trucks.getD 0 DMS.truckNeg).capacity) :=
  C1_capacity_invariant DMS.pkgsB DMS.trucksB DMS.driversB DMS.resB
    (by with_unfolding_all decide) (by with_unfolding_all rfl)
    (DMS.resB.trucks.getD 0 DMS.truckNeg) (by with_unfolding_all decide)

/-- C4 (confirmed): with one truck of capacity ten, a depot at the origin
and two weight-one packages at `(0, 0)` and `(10, 10)`, the planning run
produces exactly one route, its ordered stops are `[(0, 0), (10, 10)]`
(nearest neighbor from the depot), and its total distance is
`0 + 20 + 20 = 40` Manhattan units for the closed round trip. -/
theorem C4_scenarioB :
    (DMS.NearestNeighborStrategy.compute_routes DMS.pkgsB DMS.trucksB DMS.driversB).map
        (fun res => res.routes.map
          (fun rr => (rr.2.stops.map (fun a => (a.x, a.y)), rr.2.total_distance))) =
      some [([(0, 0), (10, 10)], 40)] := by
  with_unfolding_all decide

/-- C3 (amended): the two sequencers diverge.  (a) Every route produced by
a planning run of `NearestNeighborStrategy.compute_routes` carries
`total_distance` equal to the independently recomputed closed-tour sum
`distance(depot, stop1) + ... + distance(stopN, depot)` over its produced
stop order.  (b) `DeliverySystem.optimize_route` instead adds to the
previously stored total the open-path sum `distance(depot, stop1) + ... +
distance(stopN-1, stopN)` over the produced order, with no return leg to
the depot. -/
theorem C3_tour_totals :
    (∀ (packages : List DMS.Package) (trucks : List DMS.Truck) (drivers : List DMS.Driver)
      (res : DMS.PlanResult),
      DMS.NearestNeighborStrategy.compute_routes packages trucks drivers = some res →
      ∀ rr ∈ res.routes, rr.2.total_distance = DMS.pathDist 0 0 rr.2.stops) ∧
    (∀ (sys : Sys.DeliverySystem) (rid : String) (r : Sys.SRoute),
      Sys.lookupRoute sys.routes rid = some r → r.stops ≠ [] →
      (sys.optimize_route rid).2 = true ∧
      Sys.lookupRoute (sys.optimize_route rid).1.routes rid = some (Sys.seqRouteOf r) ∧
      (Sys.seqRouteOf r).total_distance =
        r.total_distance + Sys.openPathR (0, 0) (Sys.seqRouteOf r).stops) := by
  constructor
  · intro packages trucks drivers res hrun rr hmem
    rw [DMS.NearestNeighborStrategy.compute_routes] at hrun
    by_cases hempty : trucks.isEmpty || drivers.isEmpty
    · rw [if_pos hempty] at hrun
      simp only [Option.some.injEq] at hrun
      rw [← hrun] at hmem
      simp at hmem
    · rw [if_neg hempty] at hrun
      cases hloop : DMS.assignLoop ⟨[], trucks, drivers, 0, 0, 1⟩
          (packages.filter (fun p => p.assigned_route_id.isNone)) with
      | none => rw [hloop] at hrun; simp at hrun
      | some sout =>
        obtain ⟨s2, upd⟩ := sout
        rw [hloop] at hrun
        simp only [Option.some.injEq] at hrun
        rw [← hrun] at hmem
        simp only [List.mem_map] at hmem
        obtain ⟨rr0, _, rfl⟩ := hmem
        show (DMS.sequenceRoute rr0.2).total_distance = _
        rw [DMS.sequenceRoute]
        simp only []
        have := DMS.nnLoop_spec rr0.2.stops.length rr0.2.stops 0 0 0 rfl
        rw [this]
        ring
  · intro sys rid r hlook hne
    obtain ⟨h1, h2, h3⟩ := Sys.optimize_route_found sys rid r hlook hne
    refine ⟨h1, ?_, ?_⟩
    · rw [h3]
      exact Sys.lookup_update_self_sys _ _ _
    · have := Sys.optLoop_spec r.stops.length r.stops (0, 0) r.total_distance rfl
      rw [Sys.seqRouteOf]
      exact this

/-- C3 counterexample: for the route with the single stop `(0, 5)` and
stored total zero, the sequenced route of `DeliverySystem.optimize_route`
carries total distance five (the open path from the depot), not the
closed-tour sum ten that the claim requires. -/
theorem C3_counterexample :
    Sys.lookupRoute ((Sys.sysW.optimize_route "R1").1.routes) "R1" =
      some (Sys.seqRouteOf Sys.routeW) ∧
    (Sys.seqRouteOf Sys.routeW).total_distance ≠
      Sys.closedPathR (0, 0) (Sys.seqRouteOf Sys.routeW).stops := by
  constructor
  · have h := Sys.optimize_route_found Sys.sysW "R1" Sys.routeW (by rfl) (by simp [Sys.routeW])
    rw [h.2.2]
    exact Sys.lookup_update_self_sys _ _ _
  · have hstops : (Sys.seqRouteOf Sys.routeW).stops = [((0 : ℚ), (5 : ℚ))] := by
      rw [Sys.seqRouteOf]
      simp [Sys.routeW, Sys.optLoop, Sys.selNearestE]
    have htot : (Sys.seqRouteOf Sys.routeW).total_distance =
        Real.sqrt (Sys.d2 (0, 0) (0, 5)) := by
      rw [Sys.seqRouteOf]
      simp [Sys.routeW, Sys.optLoop, Sys.selNearestE, Sys.euclid]
    rw [hstops, htot, Sys.closedPathR, Sys.closedPathR, Sys.euclid, Sys.euclid]
    have h25 : Sys.d2 ((0 : ℚ), (0 : ℚ)) (0, 5) = 25 := by
      rw [Sys.d2]
      norm_num
    have h25b : Sys.d2 ((0 : ℚ), (5 : ℚ)) (0, 0) = 25 := by
      rw [Sys.d2]
      norm_num
    rw [h25, h25b]
    have hpos : (0 : ℝ) < Real.sqrt 25 := Real.sqrt_pos.mpr (by norm_num)
    intro hcontra
    push_cast at hcontra
    linarith

/-- C3 witness: the hypotheses of both halves of `C3_tour_totals` hold at
the concrete runs used above; the single route of the two-package scenario
satisfies the closed-tour equation. -/
theorem C3_tour_totals_witness :
    DMS.routeB.total_distance = DMS.pathDist 0 0 DMS.routeB.stops :=
  C3_tour_totals.1 DMS.pkgsB DMS.trucksB DMS.driversB DMS.resB
    (by with_unfolding_all rfl)
    (DMS.resB.routes.getD 0 ("X", { route_id := "X", truck_id := "X", driver_id := "X" }))
    (by with_unfolding_all decide)

/-- C9 (amended): `DeliverySystem.optimize_route` adds the freshly computed
open nearest-neighbor path length onto whatever `total_distance` the route
already stored, so the result is not independent of the prior value:
running it a second time on the unchanged route preserves the stop order
but adds the same path length again, leaving
`total = first_total + (first_total - original_total)` instead of the
first total. -/
theorem C9_not_idempotent (sys : Sys.DeliverySystem) (rid : String) (r : Sys.SRoute)
    (hlook : Sys.lookupRoute sys.routes rid = some r) (hne : r.stops ≠ []) :
    Sys.lookupRoute ((sys.optimize_route rid).1.routes) rid = some (Sys.seqRouteOf r) ∧
    Sys.lookupRoute ((((sys.optimize_route rid).1).optimize_route rid).1.routes) rid =
      some (Sys.seqRouteOf (Sys.seqRouteOf r)) ∧
    (Sys.seqRouteOf (Sys.seqRouteOf r)).stops = (Sys.seqRouteOf r).stops ∧
    (Sys.seqRouteOf (Sys.seqRouteOf r)).total_distance =
      (Sys.seqRouteOf r).total_distance +
        ((Sys.seqRouteOf r).total_distance - r.total_distance) := by
  obtain ⟨h1, h2, h3⟩ := Sys.optimize_route_found sys rid r hlook hne
  have hlook1 : Sys.lookupRoute ((sys.optimize_route rid).1.routes) rid =
      some (Sys.seqRouteOf r) := by
    rw [h3]
    exact Sys.lookup_update_self_sys _ _ _
  have hlen1 : (Sys.seqRouteOf r).stops.length = r.stops.length := by
    rw [Sys.seqRouteOf]
    exact Sys.optLoop_length r.stops.length r.stops (0, 0) r.total_distance rfl
  have hne1 : (Sys.seqRouteOf r).stops ≠ [] := by
    intro hc
    apply hne
    apply List.length_eq_zero.mp
    rw [← hlen1, hc]
    rfl
  have hsorted : Sys.NNSorted (0, 0) (Sys.seqRouteOf r).stops := by
    rw [Sys.seqRouteOf]
    exact Sys.optLoop_NNSorted r.stops.length r.stops (0, 0) r.total_distance rfl
  have hidem := Sys.optLoop_idem (Sys.seqRouteOf r).stops (0, 0)
    (Sys.seqRouteOf r).total_distance hsorted
  have hspec := Sys.optLoop_spec r.stops.length r.stops (0, 0) r.total_distance rfl
  obtain ⟨g1, g2, g3⟩ := Sys.optimize_route_found ((sys.optimize_route rid).1) rid
    (Sys.seqRouteOf r) hlook1 hne1
  refine ⟨hlook1, ?_, ?_, ?_⟩
  · rw [g3]
    exact Sys.lookup_update_self_sys _ _ _
  · show (Sys.seqRouteOf (Sys.seqRouteOf r)).stops = _
    rw [Sys.seqRouteOf, hidem]
  · show (Sys.seqRouteOf (Sys.seqRouteOf r)).total_distance = _
    rw [Sys.seqRouteOf, hidem]
    simp only []
    have hopen : Sys.openPathR (0, 0) (Sys.seqRouteOf r).stops =
        (Sys.seqRouteOf r).total_distance - r.total_distance := by
      have : (Sys.seqRouteOf r).total_distance =
          r.total_distance + Sys.openPathR (0, 0) (Sys.seqRouteOf r).stops := by
        rw [Sys.seqRouteOf]
        exact hspec
      linarith
    rw [hopen]

/-- C9 counterexample: on the route with single stop `(0, 5)` and stored
total zero, the first sequencing run stores total five and the second run
stores total ten: re-running `optimize_route` does not leave the total at
the freshly computed tour length, refuting the claim as stated. -/
theorem C9_counterexample :
    (Sys.seqRouteOf (Sys.seqRouteOf Sys.routeW)).total_distance ≠
      (Sys.seqRouteOf Sys.routeW).total_distance := by
  have h := C9_not_idempotent Sys.sysW "R1" Sys.routeW (by rfl) (by simp [Sys.routeW])
  rw [h.2.2.2]
  have htot : (Sys.seqRouteOf Sys.routeW).total_distance =
      Real.sqrt (Sys.d2 (0, 0) (0, 5)) := by
    rw [Sys.seqRouteOf]
    simp [Sys.routeW, Sys.optLoop, Sys.selNearestE, Sys.euclid]
  have h25 : Sys.d2 ((0 : ℚ), (0 : ℚ)) (0, 5) = 25 := by
    rw [Sys.d2]
    norm_num
  have hpos : (0 : ℝ) < Real.sqrt 25 := Real.sqrt_pos.mpr (by norm_num)
  rw [htot, h25]
  have hr0 : Sys.routeW.total_distance = 0 := rfl
  rw [hr0]
  intro hcontra
  push_cast at hcontra
  linarith

/-- C9 witness: the hypotheses of `C9_not_idempotent` hold at the concrete
one-stop route, and the theorem applies. -/
theorem C9_not_idempotent_witness :
    Sys.lookupRoute ((Sys.sysW.optimize_route "R1").1.routes) "R1" =
      some (Sys.seqRouteOf Sys.routeW) :=
  (C9_not_idempotent Sys.sysW "R1" Sys.routeW (by rfl) (by simp [Sys.routeW])).1

namespace Sys

theorem find_key_congr : ∀ (l1 l2 : List SPackage),
    l1.map pkgKey = l2.map pkgKey →
    ∀ pid, (findPackage l1 pid).map pkgKey = (findPackage l2 pid).map pkgKey := by
  intro l1
  induction l1 with
  | nil =>
    intro l2 h pid
    cases l2 with
    | nil => rfl
    | cons q qs => simp at h
  | cons p ps ih =>
    intro l2 h pid
    cases l2 with
    | nil => simp at h
    | cons q qs =>
      simp only [List.map_cons, List.cons.injEq] at h
      obtain ⟨hk, ht⟩ := h
      have hid : p.package_id = q.package_id := congrArg Prod.fst hk
      rw [findPackage, findPackage]
      by_cases hp : p.package_id = pid
      · rw [if_pos hp, if_pos (hid ▸ hp)]
        simpa using hk
      · rw [if_neg hp, if_neg (hid ▸ hp)]
        exact ih qs ht pid

theorem createStep_key (route_id pid : String) (acc : List SPackage × SRoute) :
    (createStep route_id acc pid).1.map pkgKey = acc.1.map pkgKey := by
  rw [createStep]
  cases h : findPackage acc.1 pid with
  | none => rfl
  | some pkg =>
    simp only [List.map_map]
    apply List.map_congr_left
    intro p _
    by_cases hp : p.package_id = pid
    · simp [pkgKey, hp]
    · simp [pkgKey, hp]

theorem create_fold_stops (packages0 : List SPackage) (route_id : String) :
    ∀ (pids : List String) (store : List SPackage) (r : SRoute),
      store.map pkgKey = packages0.map pkgKey →
      (pids.foldl (createStep route_id) (store, r)).2.stops =
        r.stops ++ pids.filterMap
          (fun pid => (findPackage packages0 pid).map (fun p => (p.x, p.y))) := by
  intro pids
  induction pids with
  | nil =>
    intro store r _
    rw [List.foldl_nil, List.filterMap_nil, List.append_nil]
  | cons pid rest ih =>
    intro store r hkey
    rw [List.foldl_cons, List.filterMap_cons]
    have hcongr := find_key_congr store packages0 hkey pid
    cases hfind : findPackage store pid with
    | none =>
      have h0 : findPackage packages0 pid = none := by
        rw [hfind] at hcongr
        exact Option.map_eq_none'.mp hcongr.symm
      rw [h0]
      have hstep : createStep route_id (store, r) pid = (store, r) := by
        rw [createStep, hfind]
      rw [hstep]
      exact ih store r hkey
    | some pkg =>
      have h0 : ∃ pkg0, findPackage packages0 pid = some pkg0 ∧ pkgKey pkg0 = pkgKey pkg := by
        rw [hfind] at hcongr
        cases h1 : findPackage packages0 pid with
        | none => rw [h1] at hcongr; simp at hcongr
        | some pkg0 =>
          rw [h1] at hcongr
          simp at hcongr
          exact ⟨pkg0, rfl, hcongr.symm⟩
      obtain ⟨pkg0, hp0, hkeq⟩ := h0
      rw [hp0]
      have hstep : createStep route_id (store, r) pid =
          (store.map (fun p =>
            if p.package_id = pid then
              { p with assigned_route_id := some route_id, status := "In Transit" }
            else p),
           { r with stops := r.stops ++ [(pkg.x, pkg.y)] }) := by
        rw [createStep, hfind]
      rw [hstep]
      have hkey2 : (store.map (fun p =>
          if p.package_id = pid then
            { p with assigned_route_id := some route_id, status := "In Transit" }
          else p)).map pkgKey = packages0.map pkgKey := by
        have := createStep_key route_id pid (store, r)
        rw [createStep, hfind] at this
        simpa using this.trans hkey
      rw [ih _ _ hkey2]
      have h1 : pkg0.x = pkg.x := congrArg (fun k => k.2.1) hkeq
      have h2 : pkg0.y = pkg.y := congrArg (fun k => k.2.2) hkeq
      simp [h1, h2]

theorem create_route_stops (sys : DeliverySystem) (route_id : String)
    (pids : List String) :
    (sys.create_route route_id pids).2.stops =
      pids.filterMap (fun pid => (findPackage sys.packages pid).map (fun p => (p.x, p.y))) := by
  show (pids.foldl (createStep route_id) (sys.packages, { route_id := route_id })).2.stops = _
  rw [create_fold_stops sys.packages route_id pids sys.packages { route_id := route_id } rfl]
  simp

theorem create_route_registered (sys : DeliverySystem) (route_id : String)
    (pids : List String) :
    lookupRoute (sys.create_route route_id pids).1.routes route_id =
      some (sys.create_route route_id pids).2 := by
  show lookupRoute (updateRoute sys.routes route_id
    (pids.foldl (createStep route_id) (sys.packages, { route_id := route_id })).2) route_id = _
  exact lookup_update_self_sys _ _ _

end Sys

/-- C7 (amended): `optimize_route` called with an unknown route id returns
`False` without touching the state and without crashing; `create_route`
never signals a lookup failure for unknown package ids: it silently skips
every id the package store does not hold, builds the route from the stops
of the ids it does hold, registers the route, and returns it as a normal
result. -/
theorem C7_lookup_failures :
    (∀ (sys : Sys.DeliverySystem) (rid : String),
      Sys.lookupRoute sys.routes rid = none → sys.optimize_route rid = (sys, false)) ∧
    (∀ (sys : Sys.DeliverySystem) (rid : String) (pids : List String),
      Sys.lookupRoute (sys.create_route rid pids).1.routes rid =
        some (sys.create_route rid pids).2 ∧
      (sys.create_route rid pids).2.stops =
        pids.filterMap
          (fun pid => (Sys.findPackage sys.packages pid).map (fun p => (p.x, p.y)))) :=
  ⟨fun sys rid h => Sys.optimize_route_not_found sys rid h,
   fun sys rid pids =>
     ⟨Sys.create_route_registered sys rid pids, Sys.create_route_stops sys rid pids⟩⟩

/-- C7 counterexample: calling `create_route` with a package id the core
does not hold is not signaled as a lookup failure.  On an empty package
store the call silently succeeds: it returns a normal route with no stops
and registers it in the route store, indistinguishably from a successful
creation. -/
theorem C7_counterexample :
    (Sys.DeliverySystem.create_route ⟨[], []⟩ "R1" ["P9"]).2.stops = [] ∧
    (Sys.DeliverySystem.create_route ⟨[], []⟩ "R1" ["P9"]).1.routes =
      [("R1", (Sys.DeliverySystem.create_route ⟨[], []⟩ "R1" ["P9"]).2)] := by
  constructor
  · with_unfolding_all rfl
  · with_unfolding_all rfl

/-- C7 witness: `optimize_route` on an unknown id concretely returns the
unchanged state and `False`. -/
theorem C7_lookup_failures_witness :
    Sys.DeliverySystem.optimize_route ⟨[], []⟩ "NOPE" = (⟨[], []⟩, false) :=
  C7_lookup_failures.1 ⟨[], []⟩ "NOPE" rfl

/-- C8 (confirmed): the analytics report computes
`pending = totalPackages - delivered` (never negative, since delivered
counts a sub-collection of the packages), guards the success-rate division
behind `totalPackages > 0`, reporting `none` ("N/A") exactly when the store
is empty, and is a pure reduction of the state: the model takes the state
and returns only a report, so an unchanged state yields the identical
report. -/
theorem C8_analytics_report (sys : Sys.DeliverySystem) :
    (sys.get_analytics_report).pending =
      ((sys.get_analytics_report).total_packages : ℤ) -
        ((sys.get_analytics_report).delivered : ℤ) ∧
    (sys.get_analytics_report).delivered ≤ (sys.get_analytics_report).total_packages ∧
    0 ≤ (sys.get_analytics_report).pending ∧
    (sys.packages.length = 0 → (sys.get_analytics_report).success_rate = none) ∧
    (sys.packages.length ≠ 0 → (sys.get_analytics_report).success_rate =
      some ((((sys.get_analytics_report).delivered : ℚ) /
        ((sys.get_analytics_report).total_packages : ℚ)) * 100)) := by
  have hle : (sys.packages.filter (fun p => p.status = "Delivered")).length ≤
      sys.packages.length := List.length_filter_le _ _
  refine ⟨rfl, hle, ?_, ?_, ?_⟩
  · show (0 : ℤ) ≤ (sys.packages.length : ℤ) -
      ((sys.packages.filter (fun p => p.status = "Delivered")).length : ℤ)
    omega
  · intro h0
    show (if sys.packages.length > 0 then some _ else none) = none
    rw [if_neg (by omega)]
  · intro h0
    show (if sys.packages.length > 0 then some ((((sys.packages.filter
      (fun p => p.status = "Delivered")).length : ℚ)) / (sys.packages.length : ℚ) * 100)
      else none) = _
    rw [if_pos (by omega)]
    rfl

/-- C8 witness: on the empty state the success rate is reported as not
applicable and pending is zero. -/
theorem C8_analytics_report_witness :
    (Sys.DeliverySystem.get_analytics_report ⟨[], []⟩).success_rate = none :=
  (C8_analytics_report ⟨[], []⟩).2.2.2.1 rfl

namespace Sys

theorem bestClusterAux_spec (pos : Point) (w maxW : ℚ) (centroids : List Point)
    (weights : List ℚ) :
    ∀ (idxs : List ℕ) (best : Option ℕ),
      (∀ jb, best = some jb → weights.getD jb 0 + w ≤ maxW) →
      ∀ j, bestClusterAux pos w maxW centroids weights idxs best = some j →
        (weights.getD j 0 + w ≤ maxW) ∧
        (∀ i ∈ idxs, weights.getD i 0 + w ≤ maxW →
          d2 pos (centroids.getD j (0, 0)) ≤ d2 pos (centroids.getD i (0, 0))) ∧
        (∀ jb, best = some jb →
          d2 pos (centroids.getD j (0, 0)) ≤ d2 pos (centroids.getD jb (0, 0))) ∧
        (best = some j ∨ j ∈ idxs) := by
  intro idxs
  induction idxs with
  | nil =>
    intro best hb j hres
    rw [bestClusterAux] at hres
    refine ⟨hb j hres, by simp, ?_, Or.inl hres⟩
    intro jb hjb
    rw [hres] at hjb
    obtain rfl : j = jb := by simpa using hjb
    exact le_refl _
  | cons i rest ih =>
    intro best hb j hres
    cases best with
    | none =>
      rw [bestClusterAux] at hres
      by_cases hfeas : weights.getD i 0 + w ≤ maxW
      · rw [if_pos hfeas] at hres
        have h2 := ih (some i)
          (fun jb hjb => by
            obtain rfl : i = jb := by simpa using hjb
            exact hfeas) j hres
        refine ⟨h2.1, ?_, by simp, ?_⟩
        · intro i' hi' hfi'
          rcases List.mem_cons.mp hi' with rfl | hmem
          · exact h2.2.2.1 i' rfl
          · exact h2.2.1 i' hmem hfi'
        · rcases h2.2.2.2 with hji | hmem
          · obtain rfl : i = j := by simpa using hji
            exact Or.inr (List.mem_cons_self _ _)
          · exact Or.inr (List.mem_cons_of_mem _ hmem)
      · rw [if_neg hfeas] at hres
        have h2 := ih none (by simp) j hres
        refine ⟨h2.1, ?_, by simp, ?_⟩
        · intro i' hi' hfi'
          rcases List.mem_cons.mp hi' with rfl | hmem
          · exact absurd hfi' hfeas
          · exact h2.2.1 i' hmem hfi'
        · rcases h2.2.2.2 with hb1 | hmem
          · simp at hb1
          · exact Or.inr (List.mem_cons_of_mem _ hmem)
    | some jb =>
      rw [bestClusterAux] at hres
      by_cases hfeas : weights.getD i 0 + w ≤ maxW
      · rw [if_pos hfeas] at hres
        by_cases hd : d2 pos (centroids.getD i (0, 0)) < d2 pos (centroids.getD jb (0, 0))
        · rw [if_pos hd] at hres
          have h2 := ih (some i)
            (fun jb' hjb' => by
              obtain rfl : i = jb' := by simpa using hjb'
              exact hfeas) j hres
          have hji : d2 pos (centroids.getD j (0, 0)) ≤ d2 pos (centroids.getD i (0, 0)) :=
            h2.2.2.1 i rfl
          refine ⟨h2.1, ?_, ?_, ?_⟩
          · intro i' hi' hfi'
            rcases List.mem_cons.mp hi' with rfl | hmem
            · exact hji
            · exact h2.2.1 i' hmem hfi'
          · intro jb' hjb'
            obtain rfl : jb = jb' := by simpa using hjb'
            exact le_trans hji (le_of_lt hd)
          · rcases h2.2.2.2 with hji2 | hmem
            · obtain rfl : i = j := by simpa using hji2
              exact Or.inr (List.mem_cons_self _ _)
            · exact Or.inr (List.mem_cons_of_mem _ hmem)
        · rw [if_neg hd] at hres
          have h2 := ih (some jb)
            (fun jb' hjb' => by
              obtain rfl : jb = jb' := by simpa using hjb'
              exact hb jb rfl) j hres
          have hjjb : d2 pos (centroids.getD j (0, 0)) ≤ d2 pos (centroids.getD jb (0, 0)) :=
            h2.2.2.1 jb rfl
          refine ⟨h2.1, ?_, ?_, ?_⟩
          · intro i' hi' hfi'
            rcases List.mem_cons.mp hi' with rfl | hmem
            · exact le_trans hjjb (le_of_not_lt hd)
            · exact h2.2.1 i' hmem hfi'
          · intro jb' hjb'
            obtain rfl : jb = jb' := by simpa using hjb'
            exact hjjb
          · rcases h2.2.2.2 with hji2 | hmem
            · obtain rfl : jb = j := by simpa using hji2
              exact Or.inl rfl
            · exact Or.inr (List.mem_cons_of_mem _ hmem)
      · rw [if_neg hfeas] at hres
        have h2 := ih (some jb) (fun jb' hjb' => by
          obtain rfl : jb = jb' := by simpa using hjb'
          exact hb jb rfl) j hres
        refine ⟨h2.1, ?_, h2.2.2.1, ?_⟩
        · intro i' hi' hfi'
          rcases List.mem_cons.mp hi' with rfl | hmem
          · exact absurd hfi' hfeas
          · exact h2.2.1 i' hmem hfi'
        · rcases h2.2.2.2 with hb1 | hmem
          · exact Or.inl hb1
          · exact Or.inr (List.mem_cons_of_mem _ hmem)

theorem bestCluster_spec (pos : Point) (w maxW : ℚ) (centroids : List Point)
    (weights : List ℚ) (j : ℕ)
    (h : bestCluster pos w maxW centroids weights = some j) :
    j < centroids.length ∧ (weights.getD j 0 + w ≤ maxW) ∧
    ∀ i < centroids.length, weights.getD i 0 + w ≤ maxW →
      d2 pos (centroids.getD j (0, 0)) ≤ d2 pos (centroids.getD i (0, 0)) := by
  have h2 := bestClusterAux_spec pos w maxW centroids weights
    (List.range centroids.length) none (by simp) j h
  refine ⟨?_, h2.1, ?_⟩
  · rcases h2.2.2.2 with hc | hmem
    · simp at hc
    · exact List.mem_range.mp hmem
  · intro i hi hfi
    exact h2.2.1 i (List.mem_range.mpr hi) hfi

end Sys

namespace Sys

theorem placePackage_weights_le (centroids : List Point) (maxW : ℚ)
    (acc : List (List SPackage) × List ℚ) (p : SPackage)
    (hacc : ∀ x ∈ acc.2, x ≤ maxW) :
    ∀ x ∈ (placePackage centroids maxW acc p).2, x ≤ maxW := by
  rw [placePackage]
  cases hbest : bestCluster (p.x, p.y) p.weight maxW centroids acc.2 with
  | none => exact hacc
  | some j =>
    intro x hx
    rcases List.mem_or_eq_of_mem_set hx with hmem | rfl
    · exact hacc x hmem
    · exact (bestCluster_spec _ _ _ _ _ _ hbest).2.1

theorem foldl_place_weights_le (centroids : List Point) (maxW : ℚ) :
    ∀ (pool : List SPackage) (acc : List (List SPackage) × List ℚ),
      (∀ x ∈ acc.2, x ≤ maxW) →
      ∀ x ∈ (pool.foldl (placePackage centroids maxW) acc).2, x ≤ maxW := by
  intro pool
  induction pool with
  | nil => intro acc hacc; exact hacc
  | cons p rest ih =>
    intro acc hacc
    rw [List.foldl_cons]
    exact ih _ (placePackage_weights_le centroids maxW acc p hacc)

theorem assignRound_weights_le (pool : List SPackage) (centroids : List Point)
    (maxW : ℚ) (hmax : 0 ≤ maxW) :
    ∀ x ∈ (assignRound pool centroids maxW).2, x ≤ maxW := by
  rw [assignRound]
  apply foldl_place_weights_le
  intro x hx
  rw [List.eq_of_mem_replicate hx]
  exact hmax

theorem clusterRounds_weights_le (pool : List SPackage) (maxW : ℚ) (hmax : 0 ≤ maxW) :
    ∀ (n : ℕ) (centroids : List Point),
      ∀ x ∈ ((clusterRounds pool maxW n centroids).1.2), x ≤ maxW := by
  intro n
  induction n with
  | zero =>
    intro centroids x hx
    rw [clusterRounds] at hx
    have := List.eq_of_mem_replicate hx
    rw [this]
    exact hmax
  | succ n ih =>
    intro centroids x hx
    cases n with
    | zero =>
      rw [clusterRounds] at hx
      exact assignRound_weights_le pool centroids maxW hmax x hx
    | succ m =>
      rw [clusterRounds] at hx
      exact ih _ x hx

end Sys

/-- C5 (confirmed): throughout every partitioning round of
`auto_create_routes` (the rounds run `assignRound` inside `clusterRounds`
with the maximum route weight of 100), no cluster's accumulated weight
exceeds 100: a package is added only to a cluster whose accumulated weight
plus the package weight stays within the bound; among the feasible
clusters the chosen one minimizes the Euclidean distance from the package
to the centroid (ties towards the smaller index, as the stable sort of the
source resolves them); and a package with no feasible cluster leaves the
round state unchanged. -/
theorem C5_cluster_weights :
    (∀ (pool : List Sys.SPackage) (centroids : List Sys.Point),
      ∀ x ∈ (Sys.assignRound pool centroids 100).2, x ≤ 100) ∧
    (∀ (pool : List Sys.SPackage) (n : ℕ) (centroids : List Sys.Point),
      ∀ x ∈ ((Sys.clusterRounds pool 100 n centroids).1.2), x ≤ 100) ∧
    (∀ (p : Sys.SPackage) (centroids : List Sys.Point) (weights : List ℚ) (j : ℕ),
      Sys.bestCluster (p.x, p.y) p.weight 100 centroids weights = some j →
      j < centroids.length ∧ weights.getD j 0 + p.weight ≤ 100 ∧
      ∀ i < centroids.length, weights.getD i 0 + p.weight ≤ 100 →
        Real.sqrt (Sys.d2 (p.x, p.y) (centroids.getD j (0, 0))) ≤
          Real.sqrt (Sys.d2 (p.x, p.y) (centroids.getD i (0, 0)))) ∧
    (∀ (p : Sys.SPackage) (centroids : List Sys.Point) (maxW : ℚ)
      (acc : List (List Sys.SPackage) × List ℚ),
      Sys.bestCluster (p.x, p.y) p.weight maxW centroids acc.2 = none →
      Sys.placePackage centroids maxW acc p = acc) := by
  refine ⟨?_, ?_, ?_, ?_⟩
  · intro pool centroids
    exact Sys.assignRound_weights_le pool centroids 100 (by norm_num)
  · intro pool n centroids
    exact Sys.clusterRounds_weights_le pool 100 (by norm_num) n centroids
  · intro p centroids weights j h
    obtain ⟨h1, h2, h3⟩ := Sys.bestCluster_spec (p.x, p.y) p.weight 100 centroids weights j h
    refine ⟨h1, h2, ?_⟩
    intro i hi hfi
    have := h3 i hi hfi
    exact Real.sqrt_le_sqrt (by exact_mod_cast this)
  · intro p centroids maxW acc h
    rw [Sys.placePackage, h]

/-- C5 witness: with centroids at the origin and `(3, 4)` and empty
clusters, the weight-one package at the origin is feasibly placed in
cluster zero, whose centroid is no farther than the other; and a package
of weight 200 has no feasible cluster and leaves the round state
unchanged. -/
theorem C5_cluster_weights_witness :
    Real.sqrt (Sys.d2 ((0 : ℚ), (0 : ℚ)) (0, 0)) ≤
      Real.sqrt (Sys.d2 ((0 : ℚ), (0 : ℚ)) (3, 4)) ∧
    Sys.placePackage [((0 : ℚ), (0 : ℚ))] 100 ([[]], [(0 : ℚ)]) Sys.pHeavy =
      ([[]], [(0 : ℚ)]) := by
  constructor
  · exact (C5_cluster_weights.2.2.1
      { package_id := "W", x := 0, y := 0, weight := 1 }
      [(0, 0), (3, 4)] [0, 0] 0 (by with_unfolding_all rfl)).2.2 1
      (by norm_num) (by with_unfolding_all decide)
  · exact C5_cluster_weights.2.2.2 Sys.pHeavy [((0 : ℚ), (0 : ℚ))] 100 ([[]], [(0 : ℚ)])
      (by with_unfolding_all rfl)

namespace Sys

theorem foldl_snd_length_le {α β γ : Type} (F : (γ × List β) → α → (γ × List β))
    (hF : ∀ acc x, ((F acc x).2).length ≤ acc.2.length + 1) :
    ∀ (l : List α) (acc : γ × List β), ((l.foldl F acc).2).length ≤ acc.2.length + l.length := by
  intro l
  induction l with
  | nil => intro acc; simp
  | cons x xs ih =>
    intro acc
    rw [List.foldl_cons]
    have h1 := ih (F acc x)
    have h2 := hF acc x
    simp only [List.length_cons]
    omega

theorem materializeClusters_length (sys : DeliverySystem)
    (clusters : List (List SPackage)) :
    ((materializeClusters sys clusters).2).length ≤ clusters.length := by
  rw [materializeClusters]
  have h := foldl_snd_length_le
    (fun (acc : DeliverySystem × List String) (ic : ℕ × List SPackage) =>
      if ic.2.isEmpty then acc
      else
        let rid := "AR" ++ Nat.repr (acc.1.routes.length + 1) ++ "_" ++ Nat.repr ic.1
        let s1 := (acc.1.create_route rid (ic.2.map (fun p => p.package_id))).1
        let s2 := (s1.optimize_route rid).1
        (s2, acc.2 ++ [rid]))
    (by
      intro acc x
      simp only []
      by_cases hx : x.2.isEmpty
      · rw [if_pos hx]
        omega
      · rw [if_neg hx]
        simp)
    clusters.enum (sys, [])
  simpa using h

theorem placePackage_clusters_length (centroids : List Point) (maxW : ℚ)
    (acc : List (List SPackage) × List ℚ) (p : SPackage) :
    (placePackage centroids maxW acc p).1.length = acc.1.length := by
  rw [placePackage]
  cases hbest : bestCluster (p.x, p.y) p.weight maxW centroids acc.2 with
  | none => rfl
  | some j => simp

theorem foldl_place_clusters_length (centroids : List Point) (maxW : ℚ) :
    ∀ (pool : List SPackage) (acc : List (List SPackage) × List ℚ),
      ((pool.foldl (placePackage centroids maxW) acc).1).length = acc.1.length := by
  intro pool
  induction pool with
  | nil => intro acc; rfl
  | cons p rest ih =>
    intro acc
    rw [List.foldl_cons, ih, placePackage_clusters_length]

theorem assignRound_clusters_length (pool : List SPackage) (centroids : List Point)
    (maxW : ℚ) : ((assignRound pool centroids maxW).1).length = centroids.length := by
  rw [assignRound, foldl_place_clusters_length]
  simp

theorem recomputeCentroids_length (clusters : List (List SPackage))
    (centroids : List Point) (h : clusters.length = centroids.length) :
    (recomputeCentroids clusters centroids).length = centroids.length := by
  rw [recomputeCentroids, List.length_zipWith, h]
  simp

theorem clusterRounds_clusters_length (pool : List SPackage) (maxW : ℚ) :
    ∀ (n : ℕ) (centroids : List Point),
      ((clusterRounds pool maxW n centroids).1.1).length = centroids.length := by
  intro n
  induction n with
  | zero =>
    intro centroids
    rw [clusterRounds]
    simp
  | succ n ih =>
    intro centroids
    cases n with
    | zero =>
      rw [clusterRounds]
      exact assignRound_clusters_length pool centroids maxW
    | succ m =>
      rw [clusterRounds]
      rw [ih]
      exact recomputeCentroids_length _ _ (assignRound_clusters_length pool centroids maxW)

end Sys

namespace Sys

theorem auto_create_routes_length_le (sys : DeliverySystem) (k : ℤ) :
    ((sys.auto_create_routes k).2).length ≤
      min k.toNat ((sys.packages.filter (fun p => p.assigned_route_id.isNone)).length) := by
  rw [DeliverySystem.auto_create_routes]
  simp only []
  by_cases h1 : (if ((sys.packages.filter (fun p => p.assigned_route_id.isNone)).length : ℤ) < k
      then ((sys.packages.filter (fun p => p.assigned_route_id.isNone)).length : ℤ) else k) < 1
  · rw [if_pos h1]
    simp
  · rw [if_neg h1]
    refine le_trans (materializeClusters_length sys _) ?_
    rw [clusterRounds_clusters_length]
    rw [List.length_map, List.length_take]
    by_cases hlt : ((sys.packages.filter (fun p => p.assigned_route_id.isNone)).length : ℤ) < k
    · rw [if_pos hlt] at h1 ⊢
      omega
    · rw [if_neg hlt] at h1 ⊢

theorem auto_create_routes_small_k (sys : DeliverySystem) (k : ℤ) (hk : k < 1) :
    sys.auto_create_routes k = (sys, []) := by
  rw [DeliverySystem.auto_create_routes]
  simp only []
  rw [if_pos]
  by_cases hlt : ((sys.packages.filter (fun p => p.assigned_route_id.isNone)).length : ℤ) < k
  · rw [if_pos hlt]
    omega
  · rw [if_neg hlt]
    exact hk

theorem auto_create_routes_clamp (sys : DeliverySystem) (k : ℤ)
    (hlt : ((sys.packages.filter (fun p => p.assigned_route_id.isNone)).length : ℤ) < k) :
    sys.auto_create_routes k = sys.auto_create_routes
      ((sys.packages.filter (fun p => p.assigned_route_id.isNone)).length : ℤ) := by
  rw [DeliverySystem.auto_create_routes, DeliverySystem.auto_create_routes]
  simp only []
  rw [if_pos hlt, if_neg (lt_irrefl _)]

end Sys

/-- C6 (confirmed): `auto_create_routes(k)` clamps `k` to the number of
unassigned packages when fewer are available, returns the empty route list
(with the state untouched) instead of raising when the clamped `k` is
below one, and consequently never creates more routes than
`min k (number of unassigned packages)` — in particular, with two
unassigned packages `auto_create_routes 5` creates at most two routes. -/
theorem C6_k_clamping :
    (∀ (sys : Sys.DeliverySystem) (k : ℤ),
      ((sys.auto_create_routes k).2).length ≤
        min k.toNat ((sys.packages.filter (fun p => p.assigned_route_id.isNone)).length)) ∧
    (∀ (sys : Sys.DeliverySystem) (k : ℤ), k < 1 → sys.auto_create_routes k = (sys, [])) ∧
    (∀ (sys : Sys.DeliverySystem) (k : ℤ),
      ((sys.packages.filter (fun p => p.assigned_route_id.isNone)).length : ℤ) < k →
      sys.auto_create_routes k = sys.auto_create_routes
        ((sys.packages.filter (fun p => p.assigned_route_id.isNone)).length : ℤ)) :=
  ⟨Sys.auto_create_routes_length_le,
   Sys.auto_create_routes_small_k,
   Sys.auto_create_routes_clamp⟩

/-- C6 witness: with the two-package state, `auto_create_routes 5` creates
at most two routes, and `auto_create_routes 0` returns the untouched state
with no routes. -/
theorem C6_k_clamping_witness :
    ((Sys.sysTwo.auto_create_routes 5).2).length ≤ 2 ∧
    Sys.sysTwo.auto_create_routes 0 = (Sys.sysTwo, []) := by
  constructor
  · have h := C6_k_clamping.1 Sys.sysTwo 5
    have h2 : (Sys.sysTwo.packages.filter (fun p => p.assigned_route_id.isNone)).length = 2 :=
      by with_unfolding_all decide
    rw [h2] at h
    exact le_trans h (by norm_num)
  · exact C6_k_clamping.2.1 Sys.sysTwo 0 (by norm_num)

namespace DMS

theorem lookupRoute_eq_none (l : List (String × Route)) (k : String)
    (h : ∀ kv ∈ l, kv.1 ≠ k) : lookupRoute l k = none := by
  induction l with
  | nil => rfl
  | cons kv rest ih =>
    obtain ⟨k0, r0⟩ := kv
    rw [lookupRoute, if_neg (h (k0, r0) (List.mem_cons_self _ _))]
    exact ih (fun kv hm => h kv (List.mem_cons_of_mem _ hm))

theorem lookupRoute_fresh_none (s : AssignState) (hfresh : RoutesFresh s) :
    lookupRoute s.routes (freshRouteId s.route_counter) = none := by
  apply lookupRoute_eq_none
  intro kv hm hk
  obtain ⟨m, hmlt, hkey⟩ := hfresh kv hm
  rw [hkey] at hk
  have := freshRouteId_inj m s.route_counter hk
  omega

theorem processPackage_stateOK (s : AssignState) (pkg : Package)
    (out : AssignState × Package) (hOK : StateOK s)
    (h : processPackage s pkg = some out) : StateOK out.1 := by
  rcases processPackage_cases s pkg out h with ⟨h1, _, _⟩ |
    ⟨ti, truck, driver, _, hget, _, _, hbr⟩
  · rw [h1]; exact hOK
  · rcases hbr with ⟨hcr, hout⟩ | ⟨rid0, hcr, route, hlook, hout⟩
    · rw [hout]
      constructor
      · intro kv hm
        simp only [commitState, creationState] at hm
        rcases mem_updateRoute _ _ _ _ hm with rfl | hm1
        · exact ⟨s.route_counter, by show s.route_counter < s.route_counter + 1; omega, rfl⟩
        · rcases mem_updateRoute _ _ _ _ hm1 with rfl | hm2
          · exact ⟨s.route_counter, by show s.route_counter < s.route_counter + 1; omega, rfl⟩
          · obtain ⟨m, hmlt, hkey⟩ := hOK.1 kv hm2
            exact ⟨m, by show m < s.route_counter + 1; omega, hkey⟩
      · intro kv hm
        simp only [commitState, creationState] at hm
        rcases mem_updateRoute _ _ _ _ hm with rfl | hm1
        · rfl
        · rcases mem_updateRoute _ _ _ _ hm1 with rfl | hm2
          · rfl
          · exact hOK.2 kv hm2
    · rw [hout]
      have hmemr : (routeIdOf rid0 s.route_counter, route) ∈ s.routes :=
        lookupRoute_mem _ _ _ hlook
      constructor
      · intro kv hm
        simp only [commitState] at hm
        rcases mem_updateRoute _ _ _ _ hm with rfl | hm1
        · obtain ⟨m, hmlt, hkey⟩ := hOK.1 _ hmemr
          exact ⟨m, hmlt, hkey⟩
        · exact hOK.1 kv hm1
      · intro kv hm
        simp only [commitState] at hm
        rcases mem_updateRoute _ _ _ _ hm with rfl | hm1
        · show (route.add_package pkg).1.route_id = _
          have := hOK.2 _ hmemr
          exact this
        · exact hOK.2 kv hm1

theorem processPackage_mono (s : AssignState) (pkg : Package)
    (out : AssignState × Package) (hOK : StateOK s)
    (h : processPackage s pkg = some out) : RoutesMono s out.1 := by
  rcases processPackage_cases s pkg out h with ⟨h1, _, _⟩ |
    ⟨ti, truck, driver, _, hget, _, _, hbr⟩
  · rw [h1]
    intro rid r hr
    exact ⟨r, hr, fun pid hp => hp⟩
  · rcases hbr with ⟨hcr, hout⟩ | ⟨rid0, hcr, route, hlook, hout⟩
    · rw [hout]
      intro rid r hr
      have hne : rid ≠ freshRouteId s.route_counter := by
        intro hc
        rw [hc] at hr
        rw [lookupRoute_fresh_none s hOK.1] at hr
        exact absurd hr (by simp)
      refine ⟨r, ?_, fun pid hp => hp⟩
      show lookupRoute (updateRoute (updateRoute s.routes
        (freshRouteId s.route_counter) (newRouteFor s truck driver))
        (freshRouteId s.route_counter) _ ) rid = some r
      rw [lookupRoute_update_ne _ _ _ _ hne, lookupRoute_update_ne _ _ _ _ hne]
      exact hr
    · rw [hout]
      intro rid r hr
      by_cases heq : rid = routeIdOf rid0 s.route_counter
      · rw [heq, hlook] at hr
        have hrr : route = r := by simpa using hr
        refine ⟨(route.add_package pkg).1, ?_, ?_⟩
        · rw [heq]
          show lookupRoute (updateRoute s.routes (routeIdOf rid0 s.route_counter)
            (route.add_package pkg).1) (routeIdOf rid0 s.route_counter) =
              some (route.add_package pkg).1
          exact lookupRoute_update_self _ _ _
        · intro pid hp
          rw [← hrr] at hp
          show pid ∈ route.package_ids ++ [pkg.package_id]
          exact List.mem_append_left _ hp
      · refine ⟨r, ?_, fun pid hp => hp⟩
        show lookupRoute (updateRoute s.routes (routeIdOf rid0 s.route_counter) _) rid = some r
        rw [lookupRoute_update_ne _ _ _ _ heq]
        exact hr

theorem routesMono_trans (s1 s2 s3 : AssignState)
    (h1 : RoutesMono s1 s2) (h2 : RoutesMono s2 s3) : RoutesMono s1 s3 := by
  intro rid r hr
  obtain ⟨r2, hr2, hsub2⟩ := h1 rid r hr
  obtain ⟨r3, hr3, hsub3⟩ := h2 rid r2 hr2
  exact ⟨r3, hr3, fun pid hp => hsub3 pid (hsub2 pid hp)⟩

theorem settled_mono (s s1 : AssignState) (p : Package)
    (hm : RoutesMono s s1) (h : PackageSettled s p) : PackageSettled s1 p := by
  rcases h with ⟨⟨rid, r, ha, hl, hmem⟩, hst⟩ | h2
  · obtain ⟨r1, hl1, hsub⟩ := hm rid r hl
    exact Or.inl ⟨⟨rid, r1, ha, hl1, hsub _ hmem⟩, hst⟩
  · exact Or.inr h2

theorem processPackage_settles (s : AssignState) (pkg : Package)
    (out : AssignState × Package) (hOK : StateOK s)
    (hassigned : pkg.assigned_route_id = none) (hst : pkg.status ≠ "Exception")
    (h : processPackage s pkg = some out) : PackageSettled out.1 out.2 := by
  rcases processPackage_cases s pkg out h with ⟨h1, h2, _⟩ |
    ⟨ti, truck, driver, _, hget, _, _, hbr⟩
  · rw [h2]
    exact Or.inr ⟨hassigned, rfl⟩
  · rcases hbr with ⟨hcr, hout⟩ | ⟨rid0, hcr, route, hlook, hout⟩
    · rw [hout]
      left
      refine ⟨⟨freshRouteId s.route_counter,
        ((newRouteFor s truck driver).add_package pkg).1, rfl, ?_, ?_⟩, hst⟩
      · show lookupRoute (updateRoute (creationState s ti truck driver).routes
          (freshRouteId s.route_counter) _) _ = _
        exact lookupRoute_update_self _ _ _
      · show pkg.package_id ∈ (newRouteFor s truck driver).package_ids ++ [pkg.package_id]
        simp
    · rw [hout]
      left
      have hkey : route.route_id = routeIdOf rid0 s.route_counter :=
        hOK.2 _ (lookupRoute_mem _ _ _ hlook)
      refine ⟨⟨routeIdOf rid0 s.route_counter, (route.add_package pkg).1, ?_, ?_, ?_⟩, hst⟩
      · show some route.route_id = _
        rw [hkey]
      · show lookupRoute (updateRoute s.routes (routeIdOf rid0 s.route_counter) _) _ = _
        exact lookupRoute_update_self _ _ _
      · show pkg.package_id ∈ route.package_ids ++ [pkg.package_id]
        simp

end DMS

namespace DMS

theorem assignLoop_length : ∀ (l : List Package) (s : AssignState)
    (out : AssignState × List Package),
    assignLoop s l = some out → out.2.length = l.length := by
  intro l
  induction l with
  | nil =>
    intro s out h
    rw [assignLoop] at h
    simp only [Option.some.injEq] at h
    rw [← h]
  | cons pkg rest ih =>
    intro s out h
    rw [assignLoop] at h
    cases hstep : processPackage s pkg with
    | none => rw [hstep] at h; simp at h
    | some sp =>
      obtain ⟨s1, p1⟩ := sp
      rw [hstep] at h
      simp only [] at h
      cases hloop : assignLoop s1 rest with
      | none => rw [hloop] at h; simp at h
      | some sr =>
        obtain ⟨s2, rest1⟩ := sr
        rw [hloop] at h
        simp only [Option.some.injEq] at h
        rw [← h]
        simp only [List.length_cons]
        rw [ih s1 (s2, rest1) hloop]

theorem assignLoop_settled : ∀ (l : List Package) (s : AssignState)
    (out : AssignState × List Package),
    StateOK s →
    (∀ p ∈ l, p.assigned_route_id = none ∧ p.status ≠ "Exception") →
    assignLoop s l = some out →
    StateOK out.1 ∧ RoutesMono s out.1 ∧ ∀ q ∈ out.2, PackageSettled out.1 q := by
  intro l
  induction l with
  | nil =>
    intro s out hOK _ h
    rw [assignLoop] at h
    simp only [Option.some.injEq] at h
    rw [← h]
    exact ⟨hOK, fun rid r hr => ⟨r, hr, fun pid hp => hp⟩, by simp⟩
  | cons pkg rest ih =>
    intro s out hOK hl h
    rw [assignLoop] at h
    cases hstep : processPackage s pkg with
    | none => rw [hstep] at h; simp at h
    | some sp =>
      obtain ⟨s1, p1⟩ := sp
      rw [hstep] at h
      simp only [] at h
      cases hloop : assignLoop s1 rest with
      | none => rw [hloop] at h; simp at h
      | some sr =>
        obtain ⟨s2, rest1⟩ := sr
        rw [hloop] at h
        simp only [Option.some.injEq] at h
        have hOK1 : StateOK s1 := processPackage_stateOK s pkg (s1, p1) hOK hstep
        have hmono1 : RoutesMono s s1 := processPackage_mono s pkg (s1, p1) hOK hstep
        have hp1 : PackageSettled s1 p1 :=
          processPackage_settles s pkg (s1, p1) hOK
            (hl pkg (List.mem_cons_self _ _)).1 (hl pkg (List.mem_cons_self _ _)).2 hstep
        obtain ⟨hOK2, hmono2, hsettled2⟩ := ih s1 (s2, rest1) hOK1
          (fun p hp => hl p (List.mem_cons_of_mem _ hp)) hloop
        rw [← h]
        refine ⟨hOK2, routesMono_trans _ _ _ hmono1 hmono2, ?_⟩
        intro q hq
        rcases List.mem_cons.mp hq with rfl | hq1
        · exact settled_mono s1 s2 q hmono2 hp1
        · exact hsettled2 q hq1

theorem processPackage_ids (allowed : List String) (s : AssignState) (pkg : Package)
    (out : AssignState × Package) (hids : IdsFrom allowed s.routes)
    (h : processPackage s pkg = some out) :
    IdsFrom (pkg.package_id :: allowed) out.1.routes := by
  rcases processPackage_cases s pkg out h with ⟨h1, _, _⟩ |
    ⟨ti, truck, driver, _, hget, _, _, hbr⟩
  · rw [h1]
    intro kv hm pid hp
    exact List.mem_cons_of_mem _ (hids kv hm pid hp)
  · rcases hbr with ⟨hcr, hout⟩ | ⟨rid0, hcr, route, hlook, hout⟩
    · rw [hout]
      intro kv hm pid hp
      simp only [commitState, creationState] at hm
      rcases mem_updateRoute _ _ _ _ hm with rfl | hm1
      · have : pid ∈ ([] : List String) ++ [pkg.package_id] := hp
        simp at this
        simp [this]
      · rcases mem_updateRoute _ _ _ _ hm1 with rfl | hm2
        · simp only [newRouteFor] at hp
          simp at hp
        · exact List.mem_cons_of_mem _ (hids kv hm2 pid hp)
    · rw [hout]
      intro kv hm pid hp
      simp only [commitState] at hm
      rcases mem_updateRoute _ _ _ _ hm with rfl | hm1
      · have hp2 : pid ∈ route.package_ids ++ [pkg.package_id] := hp
        rcases List.mem_append.mp hp2 with hp3 | hp3
        · exact List.mem_cons_of_mem _
            (hids _ (lookupRoute_mem _ _ _ hlook) pid hp3)
        · simp at hp3
          simp [hp3]
      · exact List.mem_cons_of_mem _ (hids kv hm1 pid hp)

theorem assignLoop_ids : ∀ (l : List Package) (allowed : List String) (s : AssignState)
    (out : AssignState × List Package),
    IdsFrom allowed s.routes → assignLoop s l = some out →
    IdsFrom (l.map Package.package_id ++ allowed) out.1.routes := by
  intro l
  induction l with
  | nil =>
    intro allowed s out hids h
    rw [assignLoop] at h
    simp only [Option.some.injEq] at h
    rw [← h]
    exact hids
  | cons pkg rest ih =>
    intro allowed s out hids h
    rw [assignLoop] at h
    cases hstep : processPackage s pkg with
    | none => rw [hstep] at h; simp at h
    | some sp =>
      obtain ⟨s1, p1⟩ := sp
      rw [hstep] at h
      simp only [] at h
      cases hloop : assignLoop s1 rest with
      | none => rw [hloop] at h; simp at h
      | some sr =>
        obtain ⟨s2, rest1⟩ := sr
        rw [hloop] at h
        simp only [Option.some.injEq] at h
        have h1 := processPackage_ids allowed s pkg (s1, p1) hids hstep
        have h2 := ih (pkg.package_id :: allowed) s1 (s2, rest1) h1 hloop
        rw [← h]
        intro kv hm pid hp
        have := h2 kv hm pid hp
        simp only [List.map_cons, List.cons_append]
        simp only [List.mem_append, List.mem_cons] at this ⊢
        tauto

end DMS

namespace DMS

theorem mergeUpdated_cons_pos_nil (p : Package) (rest : List Package)
    (hp : p.assigned_route_id.isNone) : mergeUpdated (p :: rest) [] = p :: rest := by
  rw [mergeUpdated.eq_def]
  simp [hp]

theorem mergeUpdated_cons_pos_cons (p : Package) (rest : List Package) (q : Package)
    (uRest : List Package) (hp : p.assigned_route_id.isNone) :
    mergeUpdated (p :: rest) (q :: uRest) = q :: mergeUpdated rest uRest := by
  rw [mergeUpdated.eq_def]
  simp [hp]

theorem mergeUpdated_cons_neg (p : Package) (rest : List Package) (u : List Package)
    (hp : ¬ p.assigned_route_id.isNone) :
    mergeUpdated (p :: rest) u = p :: mergeUpdated rest u := by
  rw [mergeUpdated.eq_def]
  simp [hp]

theorem mergeUpdated_length : ∀ (l u : List Package), (mergeUpdated l u).length = l.length := by
  intro l
  induction l with
  | nil => intro u; rfl
  | cons p rest ih =>
    intro u
    by_cases hp : p.assigned_route_id.isNone
    · cases u with
      | nil => rw [mergeUpdated_cons_pos_nil p rest hp]
      | cons q uRest =>
        rw [mergeUpdated_cons_pos_cons p rest q uRest hp]
        simp only [List.length_cons, ih]
    · rw [mergeUpdated_cons_neg p rest u hp]
      simp only [List.length_cons, ih]

theorem mergeUpdated_get_assigned : ∀ (l u : List Package) (i : ℕ) (hi : i < l.length)
    (hi' : i < (mergeUpdated l u).length),
    (l.get ⟨i, hi⟩).assigned_route_id ≠ none →
    (mergeUpdated l u).get ⟨i, hi'⟩ = l.get ⟨i, hi⟩ := by
  intro l
  induction l with
  | nil => intro u i hi; simp at hi
  | cons p rest ih =>
    intro u i hi hi' hassigned
    by_cases hp : p.assigned_route_id.isNone
    · cases u with
      | nil =>
        have hm := mergeUpdated_cons_pos_nil p rest hp
        simp only [List.get_eq_getElem, hm]
      | cons q uRest =>
        have hm := mergeUpdated_cons_pos_cons p rest q uRest hp
        cases i with
        | zero =>
          exfalso
          apply hassigned
          show p.assigned_route_id = none
          exact Option.isNone_iff_eq_none.mp hp
        | succ n =>
          have hn : n < rest.length := by simpa using hi
          have hn' : n < (mergeUpdated rest uRest).length := by
            rw [mergeUpdated_length]
            exact hn
          have hrec := ih uRest n hn hn' (by simpa using hassigned)
          simp only [List.get_eq_getElem, hm, List.getElem_cons_succ]
          simpa [List.get_eq_getElem] using hrec
    · have hm := mergeUpdated_cons_neg p rest u hp
      cases i with
      | zero =>
        simp only [List.get_eq_getElem, hm, List.getElem_cons_zero]
      | succ n =>
        have hn : n < rest.length := by simpa using hi
        have hn' : n < (mergeUpdated rest u).length := by
          rw [mergeUpdated_length]
          exact hn
        have hrec := ih u n hn hn' (by simpa using hassigned)
        simp only [List.get_eq_getElem, hm, List.getElem_cons_succ]
        simpa [List.get_eq_getElem] using hrec

theorem mergeUpdated_get_unassigned (P : Package → Prop) : ∀ (l u : List Package),
    (∀ q ∈ u, P q) →
    u.length = (l.filter (fun p => p.assigned_route_id.isNone)).length →
    ∀ (i : ℕ) (hi : i < l.length) (hi' : i < (mergeUpdated l u).length),
      (l.get ⟨i, hi⟩).assigned_route_id = none →
      P ((mergeUpdated l u).get ⟨i, hi'⟩) := by
  intro l
  induction l with
  | nil => intro u _ _ i hi; simp at hi
  | cons p rest ih =>
    intro u hu hlen i hi hi' hnone
    by_cases hp : p.assigned_route_id.isNone
    · have hflt : ((p :: rest).filter (fun p => p.assigned_route_id.isNone)).length =
          (rest.filter (fun p => p.assigned_route_id.isNone)).length + 1 := by
        rw [List.filter_cons, if_pos hp]
        rfl
      cases u with
      | nil =>
        rw [hflt] at hlen
        simp at hlen
      | cons q uRest =>
        have hm := mergeUpdated_cons_pos_cons p rest q uRest hp
        cases i with
        | zero =>
          have hq : (mergeUpdated (p :: rest) (q :: uRest)).get ⟨0, hi'⟩ = q := by
            simp [List.get_eq_getElem, hm]
          rw [hq]
          exact hu q (List.mem_cons_self _ _)
        | succ n =>
          have hn : n < rest.length := by simpa using hi
          have hn' : n < (mergeUpdated rest uRest).length := by
            rw [mergeUpdated_length]
            exact hn
          have hlen2 : uRest.length =
              (rest.filter (fun p => p.assigned_route_id.isNone)).length := by
            rw [hflt] at hlen
            simpa using hlen
          have hrec := ih uRest (fun q hq => hu q (List.mem_cons_of_mem _ hq)) hlen2 n hn hn'
            (by simpa using hnone)
          have hcast : (mergeUpdated (p :: rest) (q :: uRest)).get ⟨n + 1, hi'⟩ =
              (mergeUpdated rest uRest).get ⟨n, hn'⟩ := by
            simp only [List.get_eq_getElem, hm, List.getElem_cons_succ]
          rw [hcast]
          exact hrec
    · have hm := mergeUpdated_cons_neg p rest u hp
      have hflt : ((p :: rest).filter (fun p => p.assigned_route_id.isNone)).length =
          (rest.filter (fun p => p.assigned_route_id.isNone)).length := by
        rw [List.filter_cons, if_neg hp]
      cases i with
      | zero =>
        exfalso
        apply hp
        have hpn : p.assigned_route_id = none := hnone
        rw [hpn]
        rfl
      | succ n =>
        have hn : n < rest.length := by simpa using hi
        have hn' : n < (mergeUpdated rest u).length := by
          rw [mergeUpdated_length]
          exact hn
        have hrec := ih u hu (hlen.trans hflt) n hn hn' (by simpa using hnone)
        have hcast : (mergeUpdated (p :: rest) u).get ⟨n + 1, hi'⟩ =
            (mergeUpdated rest u).get ⟨n, hn'⟩ := by
          simp only [List.get_eq_getElem, hm, List.getElem_cons_succ]
        rw [hcast]
        exact hrec

end DMS

namespace Sys

theorem pkgEvolves_refl (p : SPackage) : PkgEvolves p p := Or.inl rfl

theorem pkgEvolves_trans (p q r : SPackage) (h1 : PkgEvolves p q) (h2 : PkgEvolves q r) :
    PkgEvolves p r := by
  rcases h1 with rfl | h1
  · exact h2
  · rcases h2 with rfl | h2
    · exact Or.inr h1
    · exact Or.inr ⟨h2.1.trans h1.1, h2.2.1.trans h1.2.1, h2.2.2.1.trans h1.2.2.1,
        h2.2.2.2.1.trans h1.2.2.2.1, h2.2.2.2.2.1, h2.2.2.2.2.2⟩

theorem forall₂_evolves_refl : ∀ (l : List SPackage), List.Forall₂ PkgEvolves l l
  | [] => List.Forall₂.nil
  | p :: rest => List.Forall₂.cons (pkgEvolves_refl p) (forall₂_evolves_refl rest)

theorem forall₂_evolves_map (f : SPackage → SPackage) (hf : ∀ p, PkgEvolves p (f p)) :
    ∀ {a b : List SPackage}, List.Forall₂ PkgEvolves a b →
      List.Forall₂ PkgEvolves a (b.map f) := by
  intro a b h
  induction h with
  | nil => exact List.Forall₂.nil
  | cons hpq _ ih => exact List.Forall₂.cons (pkgEvolves_trans _ _ _ hpq (hf _)) ih

theorem createStep_evolves (rid : String) (base : List SPackage)
    (acc : List SPackage × SRoute) (pid : String)
    (h : List.Forall₂ PkgEvolves base acc.1) :
    List.Forall₂ PkgEvolves base (createStep rid acc pid).1 := by
  rw [createStep]
  cases findPackage acc.1 pid with
  | none => exact h
  | some pkg =>
    refine forall₂_evolves_map _ ?_ h
    intro p
    by_cases hp : p.package_id = pid
    · rw [if_pos hp]
      exact Or.inr ⟨rfl, rfl, rfl, rfl, rfl, by simp⟩
    · rw [if_neg hp]
      exact pkgEvolves_refl p

theorem create_fold_evolves (rid : String) (base : List SPackage) :
    ∀ (ids : List String) (acc : List SPackage × SRoute),
      List.Forall₂ PkgEvolves base acc.1 →
      List.Forall₂ PkgEvolves base (ids.foldl (createStep rid) acc).1 := by
  intro ids
  induction ids with
  | nil => intro acc h; exact h
  | cons pid rest ih =>
    intro acc h
    rw [List.foldl_cons]
    exact ih _ (createStep_evolves rid base acc pid h)

theorem create_route_evolves (base : List SPackage) (sys : DeliverySystem) (rid : String)
    (ids : List String) (h : List.Forall₂ PkgEvolves base sys.packages) :
    List.Forall₂ PkgEvolves base ((sys.create_route rid ids).1).packages :=
  create_fold_evolves rid base ids (sys.packages, { route_id := rid }) h

theorem optimize_route_packages (sys : DeliverySystem) (rid : String) :
    ((sys.optimize_route rid).1).packages = sys.packages := by
  cases h : lookupRoute sys.routes rid with
  | none => rw [DeliverySystem.optimize_route, h]
  | some route =>
    rw [DeliverySystem.optimize_route, h]
    show ((if route.stops.isEmpty then (sys, true)
        else
          let res := optLoop route.stops.length route.stops (0, 0) route.total_distance
          let route1 := { route with stops := res.1, total_distance := res.2, optimized := true }
          ({ sys with routes := updateRoute sys.routes rid route1 }, true)).1).packages =
      sys.packages
    by_cases hst : route.stops.isEmpty
    · rw [if_pos hst]
    · rw [if_neg hst]

theorem materializeClusters_eq_foldl (sys0 : DeliverySystem)
    (clusters : List (List SPackage)) :
    materializeClusters sys0 clusters = clusters.enum.foldl materializeStep (sys0, []) := rfl

theorem materialize_fold_evolves (base : List SPackage) :
    ∀ (l : List (ℕ × List SPackage)) (acc : DeliverySystem × List String),
      List.Forall₂ PkgEvolves base acc.1.packages →
      List.Forall₂ PkgEvolves base ((l.foldl materializeStep acc).1).packages := by
  intro l
  induction l with
  | nil => intro acc h; exact h
  | cons ic rest ih =>
    intro acc h
    rw [List.foldl_cons]
    apply ih
    rw [materializeStep]
    by_cases hic : ic.2.isEmpty
    · rw [if_pos hic]
      exact h
    · rw [if_neg hic]
      show List.Forall₂ PkgEvolves base
        (((acc.1.create_route
              ("AR" ++ Nat.repr (acc.1.routes.length + 1) ++ "_" ++ Nat.repr ic.1)
              (ic.2.map (fun p => p.package_id))).1.optimize_route
            ("AR" ++ Nat.repr (acc.1.routes.length + 1) ++ "_" ++ Nat.repr ic.1)).1).packages
      rw [optimize_route_packages]
      exact create_route_evolves base acc.1 _ _ h

theorem auto_create_routes_evolves (sys : DeliverySystem) (k : ℤ) :
    List.Forall₂ PkgEvolves sys.packages ((sys.auto_create_routes k).1).packages := by
  rw [DeliverySystem.auto_create_routes]
  simp only []
  by_cases h1 : (if ((sys.packages.filter (fun p => p.assigned_route_id.isNone)).length : ℤ) < k
      then ((sys.packages.filter (fun p => p.assigned_route_id.isNone)).length : ℤ) else k) < 1
  · rw [if_pos h1]
    exact forall₂_evolves_refl _
  · rw [if_neg h1]
    rw [materializeClusters_eq_foldl]
    exact materialize_fold_evolves _ _ _ (forall₂_evolves_refl _)

end Sys

namespace DMS

theorem sequenceRoute_package_ids (r : Route) :
    (sequenceRoute r).package_ids = r.package_ids := rfl

theorem settledIn_of_packageSettled (s : AssignState) (pkgs : List Package)
    (trucks : List Truck) (drivers : List Driver) (q : Package)
    (h : PackageSettled s q) :
    SettledIn ⟨pkgs, trucks, drivers, s.routes.map (fun rr => (rr.1, sequenceRoute rr.2))⟩ q := by
  rcases h with ⟨⟨rid, r, hq, hlook, hpid⟩, hstat⟩ | ⟨hnone, hstat⟩
  · left
    refine ⟨⟨hstat, rid, hq, (rid, sequenceRoute r), ?_, rfl, ?_⟩, ?_⟩
    · exact List.mem_map.mpr ⟨(rid, r), lookupRoute_mem s.routes rid r hlook, rfl⟩
    · show q.package_id ∈ (sequenceRoute r).package_ids
      rw [sequenceRoute_package_ids]
      exact hpid
    · intro hb
      exact hstat hb.2
  · right
    exact ⟨⟨hnone, hstat⟩, fun ha => ha.1 hstat⟩

end DMS

/-- C2 (amended): coverage of a planning run.  For
`NearestNeighborStrategy.compute_routes`, on nonempty truck and driver
pools and inputs not already marked Exception, every package that enters
the run unassigned ends in exactly one of the two terminal states: assigned
with its id recorded on the returned route stored under its recorded route
id, or unassigned with status `Exception`; per-package failures never abort
the batch.  For `DeliverySystem.auto_create_routes`, the run always returns
and every stored package is either left untouched or assigned in transit to
a route — a package no cluster can take is dropped silently, never marked
`Exception` (see the counterexample below). -/
theorem C2_coverage :
    (∀ (packages : List DMS.Package) (trucks : List DMS.Truck) (drivers : List DMS.Driver)
       (res : DMS.PlanResult),
       trucks ≠ [] → drivers ≠ [] →
       (∀ p ∈ packages, p.status ≠ "Exception") →
       DMS.NearestNeighborStrategy.compute_routes packages trucks drivers = some res →
       ∀ (i : ℕ) (hi : i < packages.length) (hi2 : i < res.packages.length),
         (packages.get ⟨i, hi⟩).assigned_route_id = none →
         DMS.SettledIn res (res.packages.get ⟨i, hi2⟩)) ∧
    (∀ (sys : Sys.DeliverySystem) (k : ℤ),
       List.Forall₂ Sys.PkgEvolves sys.packages ((sys.auto_create_routes k).1).packages) := by
  constructor
  · intro packages trucks drivers res htr hdr hst hrun i hi hi2 hnone
    rw [DMS.NearestNeighborStrategy.compute_routes] at hrun
    by_cases hempty : trucks.isEmpty || drivers.isEmpty
    · exfalso
      simp only [Bool.or_eq_true, List.isEmpty_eq_true] at hempty
      rcases hempty with h | h
      · exact htr h
      · exact hdr h
    · rw [if_neg hempty] at hrun
      cases hloop : DMS.assignLoop ⟨[], trucks, drivers, 0, 0, 1⟩
          (packages.filter (fun p => p.assigned_route_id.isNone)) with
      | none => rw [hloop] at hrun; simp at hrun
      | some sout =>
        obtain ⟨s2, upd⟩ := sout
        rw [hloop] at hrun
        simp only [Option.some.injEq] at hrun
        have hOK0 : DMS.StateOK ⟨[], trucks, drivers, 0, 0, 1⟩ :=
          ⟨fun kv hm => absurd hm (by simp), fun kv hm => absurd hm (by simp)⟩
        have hin : ∀ p ∈ packages.filter (fun p => p.assigned_route_id.isNone),
            p.assigned_route_id = none ∧ p.status ≠ "Exception" := by
          intro p hp
          have hmem := List.mem_filter.mp hp
          exact ⟨Option.isNone_iff_eq_none.mp hmem.2, hst p hmem.1⟩
        obtain ⟨hOKf, _, hsettled⟩ :=
          DMS.assignLoop_settled _ _ _ hOK0 hin hloop
        have hlen := DMS.assignLoop_length _ _ _ hloop
        subst hrun
        have hq := DMS.mergeUpdated_get_unassigned (DMS.PackageSettled s2) packages upd
          hsettled hlen i hi hi2 hnone
        exact DMS.settledIn_of_packageSettled s2 _ _ _ _ hq
  · intro sys k
    exact Sys.auto_create_routes_evolves sys k

/-- C2 counterexample: the claim as stated fails for
`auto_create_routes`.  A single stored package of weight 200 is in the
unassigned input pool of `auto_create_routes 1`; no cluster can take it
(200 > 100), and the run returns with the state untouched: the package
ends unassigned with its status still `Created`, neither assigned to a
route nor marked `Exception`. -/
theorem C2_counterexample :
    Sys.pHeavy ∈ Sys.sysC2.packages ∧
    Sys.pHeavy.assigned_route_id = none ∧
    Sys.pHeavy.status ≠ "Exception" ∧
    Sys.sysC2.auto_create_routes 1 = (Sys.sysC2, []) := by
  refine ⟨by with_unfolding_all decide, by with_unfolding_all rfl,
    by with_unfolding_all decide, ?_⟩
  with_unfolding_all rfl

/-- C2 witness: in the two-package scenario the hypotheses of the coverage
theorem hold and the first package is settled; the two-package state of
the partitioner evolves pointwise under `auto_create_routes 2`. -/
theorem C2_coverage_witness :
    DMS.SettledIn DMS.resB (DMS.resB.packages.get ⟨0, by with_unfolding_all decide⟩) ∧
    List.Forall₂ Sys.PkgEvolves Sys.sysTwo.packages
      ((Sys.sysTwo.auto_create_routes 2).1).packages := by
  constructor
  · exact C2_coverage.1 DMS.pkgsB DMS.trucksB DMS.driversB DMS.resB
      (by with_unfolding_all decide) (by with_unfolding_all decide)
      (by with_unfolding_all decide) (by with_unfolding_all rfl) 0
      (by with_unfolding_all decide) (by with_unfolding_all decide)
      (by with_unfolding_all rfl)
  · exact C2_coverage.2 Sys.sysTwo 2

/-- C10 (confirmed): `NearestNeighborStrategy.compute_routes` works only on
the packages whose `assigned_route_id` is `none`: the returned package
store has the same length, every package that entered the run already
assigned sits unchanged at its position, and (for stores with distinct
package ids) its id is recorded on none of the returned routes. -/
theorem C10_frame (packages : List DMS.Package) (trucks : List DMS.Truck)
    (drivers : List DMS.Driver) (res : DMS.PlanResult)
    (hnodup : (packages.map DMS.Package.package_id).Nodup)
    (hrun : DMS.NearestNeighborStrategy.compute_routes packages trucks drivers = some res) :
    res.packages.length = packages.length ∧
    (∀ (i : ℕ) (hi : i < packages.length) (hi2 : i < res.packages.length),
      (packages.get ⟨i, hi⟩).assigned_route_id ≠ none →
      res.packages.get ⟨i, hi2⟩ = packages.get ⟨i, hi⟩) ∧
    (∀ p ∈ packages, p.assigned_route_id ≠ none →
      ∀ kv ∈ res.routes, p.package_id ∉ kv.2.package_ids) := by
  rw [DMS.NearestNeighborStrategy.compute_routes] at hrun
  by_cases hempty : trucks.isEmpty || drivers.isEmpty
  · rw [if_pos hempty] at hrun
    simp only [Option.some.injEq] at hrun
    subst hrun
    exact ⟨rfl, fun i hi hi2 _ => rfl, fun p _ _ kv hkv => absurd hkv (by simp)⟩
  · rw [if_neg hempty] at hrun
    cases hloop : DMS.assignLoop ⟨[], trucks, drivers, 0, 0, 1⟩
        (packages.filter (fun p => p.assigned_route_id.isNone)) with
    | none => rw [hloop] at hrun; simp at hrun
    | some sout =>
      obtain ⟨s2, upd⟩ := sout
      rw [hloop] at hrun
      simp only [Option.some.injEq] at hrun
      subst hrun
      refine ⟨DMS.mergeUpdated_length packages upd, ?_, ?_⟩
      · intro i hi hi2 hassigned
        exact DMS.mergeUpdated_get_assigned packages upd i hi hi2 hassigned
      · intro p hp hpnone kv hkv hpid
        have hids := DMS.assignLoop_ids _ [] _ _
          (by intro kv0 hm; simp at hm) hloop
        obtain ⟨kv0, hkv0, rfl⟩ := List.mem_map.mp hkv
        have hpid0 : p.package_id ∈ kv0.2.package_ids := hpid
        have hmem := hids kv0 hkv0 p.package_id hpid0
        rw [List.append_nil] at hmem
        obtain ⟨q, hq, hqid⟩ := List.mem_map.mp hmem
        have hqin := List.mem_filter.mp hq
        have hqp : q = p := List.inj_on_of_nodup_map hnodup hqin.1 hp hqid
        rw [hqp] at hqin
        exact hpnone (Option.isNone_iff_eq_none.mp hqin.2)

/-- C10 witness: in the scenario with a pre-assigned package ahead of an
unassigned one, the hypotheses of the frame theorem hold and the returned
store keeps its length. -/
theorem C10_frame_witness :
    (([DMS.pkgPre, DMS.pkgEight].map DMS.Package.package_id).Nodup ∧
      DMS.resPre.packages.length = [DMS.pkgPre, DMS.pkgEight].length) :=
  ⟨by with_unfolding_all decide,
   (C10_frame [DMS.pkgPre, DMS.pkgEight] DMS.trucksB DMS.driversB DMS.resPre
      (by with_unfolding_all decide) (by with_unfolding_all rfl)).1⟩
